import Mathlib

/-!
Verification development for the dapi dependency-injection facade engine
(src/DapiMixin.ts).  The data model and the operations of the DapiWrapper
class are embedded shallowly: JS objects used as string-keyed maps become
association lists, registered decorator and hook function instances are
named by numeric identities (removal is by identity), and the decorable
call pipeline is an executable evaluator producing the call outcome
together with a trace of observable events (command invocations, hook
invocations, decorator-chosen events).
-/

namespace Dapi

/-- Runtime values passed through facade calls: numbers, strings and plain
objects (the dependency bundle is passed as an object value). -/
inductive Val where
  | int : Int → Val
  | str : String → Val
  | obj : List (String × Val) → Val

/-- Errors thrown inside calls (underlying functions, decorators, hooks) are
identified by an opaque numeric id, so that propagating an error unmodified
means propagating the same id. -/
abbrev Err := Nat

/-- The receiver a function is invoked with: the wrapper instance (the code
always uses the wrapper as receiver via call/apply/bind) or some other one. -/
inductive Recv where
  | wrapper
  | other
deriving DecidableEq

/-- Possible outcomes of invoking an underlying Dapi function: a synchronous
throw, a plain return value, or a returned promise whose eventual settlement
(resolution value or rejection error) is part of the outcome. -/
inductive CmdRes where
  | throw : Err → CmdRes
  | ret : Val → CmdRes
  | promiseRes : Val → CmdRes
  | promiseRej : Err → CmdRes

/-- Result value of a facade call when it does not throw synchronously:
either a plain value or a promise with its settlement. -/
inductive CallRes where
  | v : Val → CallRes
  | promise : Except Err Val → CallRes

/-- Observable events of a facade call: the underlying command being called
(with receiver and full argument list), a pre or post hook being invoked
with its argument list, or an event a decorator chooses to emit. -/
inductive Event where
  | cmdCall : Recv → List Val → Event
  | preHook : Nat → List Val → Event
  | postHook : Nat → List Val → Event
  | decorEv : Nat → List Val → Event

/-- Complete outcome of one facade invocation: the events of the synchronous
phase, the value/error returned to the caller, the events of the deferred
phase (callbacks scheduled on the returned promise, running after it
settles), and errors thrown in the deferred phase, which are swallowed by
the engine (they reject only the derived then-promise nobody holds). -/
structure CallOut where
  sync : List Event
  result : Except Err CallRes
  deferred : List Event
  swallowed : List Err

/-- Semantics of an argument-consuming callable inside the pipeline. -/
abbrev Sem := List Val → CallOut

/-- Per-key hook record, mirroring the shape created by addHook. -/
structure HookRec where
  pre : List Nat
  post : List Nat
deriving DecidableEq

/-- Hook phase. -/
inductive Phase where
  | pre
  | post
deriving DecidableEq

/-- Fixed environment of one wrapper: the definition's function dictionary
(by key), the behaviour of decorator identities (a decorator receives the
next callable and produces a callable), the behaviour of hook identities
(whether a hook throws on given arguments; its invocation is recorded as an
event by the evaluator), and the function-valued properties contributed by
the superclass. -/
structure Env where
  fns : List (String × (Recv → List Val → CmdRes))
  decSem : Nat → Sem → Sem
  hookSem : Nat → List Val → Option Err
  baseFnProps : List String

/-- TypeErrors surfaced by registration methods: ones thrown explicitly by
the code with a message, and the runtime TypeError raised by reading a
property of undefined. -/
inductive JsErr where
  | typeError : String → JsErr
  | undefinedAccess : String → JsErr
deriving DecidableEq

/-- Mutable state of a DapiWrapper instance: current dependencies (__deps),
the stored definition's dependencies field, the decorators map, the hooks
map and the decorated-keys list (__decoratedFns).  The facade map is not
stored: which closure is installed for a key is determined exactly by
membership in decoratedFns, so call behaviour is derived from this state. -/
structure DapiState where
  deps : List (String × Val)
  defnDeps : List (String × Val)
  decorators : List (String × List Nat)
  hooks : List (String × HookRec)
  decoratedFns : List String

/-- Lookup in a string-keyed association list (first match), the analogue of
reading a property of a JS object used as a map. -/
def alookup {α : Type} : List (String × α) → String → Option α
  | [], _ => none
  | (k, v) :: rest, key => if k = key then some v else alookup rest key

/-- Property assignment on a JS object used as a map: an existing key keeps
its position and gets the new value, a new key is appended at the end. -/
def aset {α : Type} : List (String × α) → String → α → List (String × α)
  | [], key, v => [(key, v)]
  | (k, w) :: rest, key, v =>
    if k = key then (k, v) :: rest else (k, w) :: aset rest key v

/-- Property deletion on a JS object used as a map. -/
def adelete {α : Type} : List (String × α) → String → List (String × α)
  | [], _ => []
  | (k, w) :: rest, key => if k = key then rest else (k, w) :: adelete rest key

/-- splice(indexOf(a), 1): remove the first occurrence of an element, a
no-op when the element is absent (indexOf returns -1). -/
def eraseFirst {α : Type} [DecidableEq α] : List α → α → List α
  | [], _ => []
  | x :: xs, a => if x = a then xs else x :: eraseFirst xs a

/-- Keys of an association list. -/
def akeys {α : Type} (l : List (String × α)) : List String := l.map Prod.fst

/-- State of a freshly constructed wrapper: dependencies copied from the
definition, empty decorators and hooks maps, empty decorated-keys list. -/
def initState (d : List (String × Val)) : DapiState :=
  { deps := d, defnDeps := d, decorators := [], hooks := [], decoratedFns := [] }

/-- Names of the methods defined on the DapiWrapper class itself; these are
function-valued properties for the typeof check in addDecorator. -/
def wrapperMethodNames : List String :=
  ["__makeFacade", "__makeDecorable", "unmakeDecorable", "getDependencies",
   "updateDependencies", "setDependencies", "getDefinition", "toJSON",
   "toString", "addDecorator", "decorateAll", "removeDecorator", "addHook",
   "removeHook", "addPreHook", "addPostHook", "removePreHook",
   "removePostHook", "__hookDecorator"]

/-- Whether this[key] is a function: the constructor assigns one arrow
function per fns key, the class provides its methods, and the superclass
may contribute further function-valued properties. -/
def isFunctionProp (env : Env) (k : String) : Bool :=
  (alookup env.fns k).isSome || wrapperMethodNames.contains k
    || env.baseFnProps.contains k

/-- __makeDecorable bookkeeping: installs the decorable closure for a key,
recorded as pushing the key onto decoratedFns, unless the key is already
decorated or is not an own entry of the definition's fns dictionary. -/
def makeDecorable (env : Env) (k : String) (st : DapiState) : DapiState :=
  if k ∈ st.decoratedFns ∨ (alookup env.fns k).isNone then st
  else { st with decoratedFns := st.decoratedFns ++ [k] }

/-- unmakeDecorable: restores the plain closure for a key, recorded as
removing the key from decoratedFns, unless the key is not decorated or
still has an entry in the decorators map or the hooks map. -/
def unmakeDecorable (k : String) (st : DapiState) : DapiState :=
  if k ∉ st.decoratedFns ∨ (alookup st.decorators k).isSome
      ∨ (alookup st.hooks k).isSome then st
  else { st with decoratedFns := eraseFirst st.decoratedFns k }

/-- Mutation core of addDecorator after its two validation checks passed:
create the key's decorator list if absent, push the decorator, then
__makeDecorable. -/
def addDecCore (env : Env) (k : String) (d : Nat) (st : DapiState) : DapiState :=
  makeDecorable env k
    { st with
      decorators := aset st.decorators k (((alookup st.decorators k).getD []) ++ [d]) }

/-- addDecorator(key, decorator): throws a TypeError if this[key] is not a
function or key is not a function entry of the definition's fns dictionary;
otherwise registers the decorator.  The returned pair carries the thrown
error (if any) together with the state at that moment, so an error result
shows the registries untouched.  The remover it returns in the source is
removeDecorator applied to the same key and identity. -/
def addDecorator (env : Env) (k : String) (d : Nat) (st : DapiState) :
    Option JsErr × DapiState :=
  if ¬ isFunctionProp env k then
    (some (JsErr.typeError "Cannot decorate non-function property"), st)
  else if (alookup env.fns k).isNone then
    (some (JsErr.typeError "Cannot decorate non-Dapi function property"), st)
  else
    (none, addDecCore env k d st)

/-- removeDecorator(key, decorator): erase the first identity match from the
key's decorator list if present, delete the list when it becomes empty,
then unmakeDecorable.  Never throws. -/
def removeDecoratorCore (k : String) (d : Nat) (st : DapiState) : DapiState :=
  let st1 :=
    match alookup st.decorators k with
    | none => st
    | some l =>
      let l' := eraseFirst l d
      if l' = [] then { st with decorators := adelete st.decorators k }
      else { st with decorators := aset st.decorators k l' }
  unmakeDecorable k st1

/-- Push a hook identity onto the list of one phase of a hook record. -/
def hookPush (ph : Phase) (h : Nat) (r : HookRec) : HookRec :=
  match ph with
  | Phase.pre => { r with pre := r.pre ++ [h] }
  | Phase.post => { r with post := r.post ++ [h] }

/-- Remove the first identity match from the list of one phase of a hook
record (splice at indexOf, a no-op when absent). -/
def hookErase (ph : Phase) (h : Nat) (r : HookRec) : HookRec :=
  match ph with
  | Phase.pre => { r with pre := eraseFirst r.pre h }
  | Phase.post => { r with post := eraseFirst r.post h }

/-- Mutation core of addHook after its validation check passed: create the
key's {pre, post} record if absent, push the hook onto the phase list, then
__makeDecorable. -/
def addHookCore (env : Env) (ph : Phase) (k : String) (h : Nat)
    (st : DapiState) : DapiState :=
  makeDecorable env k
    { st with hooks :=
                aset st.hooks k
                  (hookPush ph h ((alookup st.hooks k).getD ⟨[], []⟩)) }

/-- addHook(hookType, key, hook): throws a TypeError if the key is not among
the keys of the definition's fns dictionary; otherwise registers the hook.
The remover it returns in the source is removeHook on the same triple. -/
def addHook (env : Env) (ph : Phase) (k : String) (h : Nat) (st : DapiState) :
    Option JsErr × DapiState :=
  if ¬ (alookup env.fns k).isSome then
    (some (JsErr.typeError "Cannot hook to non-function property"), st)
  else
    (none, addHookCore env ph k h st)

/-- removeHook(hookType, key, hook): the source reads
this.hooks[key][hookType] without a guard, so when the per-key record is
absent the read raises a runtime TypeError (property of undefined) before
any mutation; otherwise it erases the first identity match, deletes the
record when both phase lists are empty, and re-evaluates unmakeDecorable. -/
def removeHook (ph : Phase) (k : String) (h : Nat) (st : DapiState) :
    Option JsErr × DapiState :=
  match alookup st.hooks k with
  | none =>
    (some (JsErr.undefinedAccess "Cannot read properties of undefined"), st)
  | some r =>
    let st1 :=
      if (hookErase ph h r).pre = [] ∧ (hookErase ph h r).post = [] then
        { st with hooks := adelete st.hooks k }
      else { st with hooks := aset st.hooks k (hookErase ph h r) }
    (none, unmakeDecorable k st1)

/-- Iteration of decorateAll over the keys of the fns dictionary: each key
goes through addDecorator; an exception aborts the loop, keeping the
mutations already made.  Also accumulates, in order, the (key, identity)
pairs whose removers were collected. -/
def decorateAllGo (env : Env) (d : Nat) :
    List String → DapiState → List (String × Nat) →
      Option JsErr × DapiState × List (String × Nat)
  | [], st, acc => (none, st, acc)
  | k :: ks, st, acc =>
    match addDecorator env k d st with
    | (some e, st') => (some e, st', acc)
    | (none, st') => decorateAllGo env d ks st' (acc ++ [(k, d)])

/-- decorateAll(decorator): adds the decorator to every key of the fns
dictionary in key order, collecting the removers. -/
def decorateAll (env : Env) (d : Nat) (st : DapiState) :
    Option JsErr × DapiState × List (String × Nat) :=
  decorateAllGo env d (akeys env.fns) st []

/-- The single remover returned by decorateAll: invokes the collected
per-key removers in the order they were collected. -/
def runRemovers (rs : List (String × Nat)) (st : DapiState) : DapiState :=
  rs.foldl (fun s kd => removeDecoratorCore kd.1 kd.2 s) st

/-- setDependencies(newDeps): throws a TypeError when the argument is falsy
(modelled as none), otherwise replaces both the internal dependency
reference and the stored definition's dependencies field. -/
def setDependencies (nd : Option (List (String × Val))) (st : DapiState) :
    Option JsErr × DapiState :=
  match nd with
  | none => (some (JsErr.typeError "Dependencies must be defined"), st)
  | some d => (none, { st with deps := d, defnDeps := d })

/-- JS object spread merge of two maps: the left operand's entries first
(overridden values in place), then the right operand's new keys in order. -/
def objMerge (a b : List (String × Val)) : List (String × Val) :=
  b.foldl (fun acc kv => aset acc kv.1 kv.2) a

/-- updateDependencies(partial): throws a TypeError when the argument is
falsy, otherwise delegates the shallow merge to setDependencies. -/
def updateDependencies (nd : Option (List (String × Val))) (st : DapiState) :
    Option JsErr × DapiState :=
  match nd with
  | none => (some (JsErr.typeError "Dependencies must be defined"), st)
  | some p => setDependencies (some (objMerge st.deps p)) st

/-- Lifting of an underlying function outcome to a call result. -/
def liftCmdRes : CmdRes → Except Err CallRes
  | CmdRes.throw e => Except.error e
  | CmdRes.ret v => Except.ok (CallRes.v v)
  | CmdRes.promiseRes v => Except.ok (CallRes.promise (Except.ok v))
  | CmdRes.promiseRej e => Except.ok (CallRes.promise (Except.error e))

/-- Semantics of the raw underlying function at the bottom of the chain
(command.bind(this) applied to the argument list): the invocation is
recorded with the wrapper as receiver and the outcome is returned
unchanged; nothing is scheduled. -/
def baseSem (cmd : Recv → List Val → CmdRes) : Sem := fun args =>
  ⟨[Event.cmdCall Recv.wrapper args], liftCmdRes (cmd Recv.wrapper args), [], []⟩

/-- Run a list of hooks in order on a fixed argument list: each invoked hook
is recorded as an event; a throwing hook stops the loop and yields the
error. -/
def runHooks (env : Env) (mk : Nat → List Val → Event) :
    List Nat → List Val → List Event × Option Err
  | [], _ => ([], none)
  | h :: rest, args =>
    match env.hookSem h args with
    | some e => ([mk h args], some e)
    | none =>
      let r := runHooks env mk rest args
      (mk h args :: r.1, r.2)

/-- Semantics of the synthesized hook decorator (__hookDecorator's returned
closure): run the pre-hooks (a throw propagates before the wrapped call),
invoke the wrapped callable, and then run the post-hooks - synchronously
when the result is not a promise (a throw there propagates to the caller),
in the deferred phase when the result is a promise that resolves (a throw
there only rejects the derived then-promise and is swallowed), and not at
all when the promise rejects; the wrapped call's result is returned
unchanged. -/
def hookDecSem (env : Env) (st : DapiState) (k : String) (next : Sem) : Sem :=
  fun args =>
    let pres := ((alookup st.hooks k).map HookRec.pre).getD []
    let posts := ((alookup st.hooks k).map HookRec.post).getD []
    let preEvs := (runHooks env Event.preHook pres args).1
    match (runHooks env Event.preHook pres args).2 with
    | some e => ⟨preEvs, Except.error e, [], []⟩
    | none =>
      let r := next args
      match r.result with
      | Except.error e => ⟨preEvs ++ r.sync, Except.error e, r.deferred, r.swallowed⟩
      | Except.ok (CallRes.v v) =>
        let postEvs := (runHooks env Event.postHook posts args).1
        match (runHooks env Event.postHook posts args).2 with
        | some e =>
          ⟨preEvs ++ r.sync ++ postEvs, Except.error e, r.deferred, r.swallowed⟩
        | none =>
          ⟨preEvs ++ r.sync ++ postEvs, Except.ok (CallRes.v v), r.deferred,
            r.swallowed⟩
      | Except.ok (CallRes.promise (Except.ok v)) =>
        let postEvs := (runHooks env Event.postHook posts args).1
        ⟨preEvs ++ r.sync, Except.ok (CallRes.promise (Except.ok v)),
          r.deferred ++ postEvs,
          r.swallowed ++ ((runHooks env Event.postHook posts args).2).toList⟩
      | Except.ok (CallRes.promise (Except.error e)) =>
        ⟨preEvs ++ r.sync, Except.ok (CallRes.promise (Except.error e)),
          r.deferred, r.swallowed⟩

/-- One link of the call chain: the synthesized hook decorator or a user
decorator identity. -/
inductive ChainElem where
  | hook : ChainElem
  | decor : Nat → ChainElem

/-- Semantics of one chain link given the already-wrapped inner callable. -/
def elemSem (env : Env) (st : DapiState) (k : String) :
    ChainElem → Sem → Sem
  | ChainElem.hook, next => hookDecSem env st k next
  | ChainElem.decor i, next => env.decSem i next

/-- The reduce of __makeDecorable: fold the chain links left to right over
the raw command, each link wrapping the accumulated callable as its next
argument; hence the last link of the list becomes the outermost wrapper. -/
def composeChain (env : Env) (st : DapiState) (k : String)
    (elems : List ChainElem) (b : Sem) : Sem :=
  elems.foldl (fun acc e => elemSem env st k e acc) b

/-- One facade invocation of key k with user call-site arguments params.
An undecorated key calls the command directly with the current dependencies
prepended; a decorated key snapshots the decorator list, puts the hook
decorator (when the key has hooks) at the front, and either calls the
command directly when the chain is empty or applies the composed chain to
the dependency-prepended argument list.  A key outside the fns dictionary
has no facade entry; that call is not modelled (a JS TypeError). -/
def callFacade (env : Env) (st : DapiState) (k : String) (params : List Val) :
    CallOut :=
  match alookup env.fns k with
  | none => ⟨[], Except.error 0, [], []⟩
  | some cmd =>
    if k ∈ st.decoratedFns then
      let decs := (alookup st.decorators k).getD []
      let elems :=
        (if (alookup st.hooks k).isSome then [ChainElem.hook] else [])
          ++ decs.map ChainElem.decor
      match elems with
      | [] => baseSem cmd (Val.obj st.deps :: params)
      | _ :: _ =>
        composeChain env st k elems (baseSem cmd) (Val.obj st.deps :: params)
    else baseSem cmd (Val.obj st.deps :: params)

/-- Checks whether an event is a post-hook invocation. -/
def isPostEv : Event → Bool
  | Event.postHook _ _ => true
  | _ => false

/-- Checks whether an event is a pre-hook invocation. -/
def isPreEv : Event → Bool
  | Event.preHook _ _ => true
  | _ => false

/-- Number of post-hook invocations observable anywhere in a call outcome. -/
def postCount (out : CallOut) : Nat :=
  ((out.sync ++ out.deferred).filter isPostEv).length

/-- Argument lists received by the pre-hook invocations of a trace. -/
def preHookArgs : List Event → List (List Val)
  | [] => []
  | Event.preHook _ a :: rest => a :: preHookArgs rest
  | _ :: rest => preHookArgs rest

/-- Identity of the decorator that emitted the first decorator event of a
trace, used to observe which registered decorator executed first. -/
def firstDecorId : List Event → Option Nat
  | [] => none
  | Event.decorEv i _ :: _ => some i
  | _ :: rest => firstDecorId rest

/-- The plain integer returned by a call, when there is one. -/
def resInt (out : CallOut) : Option Int :=
  match out.result with
  | Except.ok (CallRes.v (Val.int i)) => some i
  | _ => none

/-- The error a call threw synchronously, when there is one. -/
def resErr (out : CallOut) : Option Err :=
  match out.result with
  | Except.error e => some e
  | _ => none

/-- The rejection error of the promise a call returned, when there is one. -/
def resRejection (out : CallOut) : Option Err :=
  match out.result with
  | Except.ok (CallRes.promise (Except.error e)) => some e
  | _ => none

/-- The resolution value of the promise a call returned, as an integer. -/
def resPromiseInt (out : CallOut) : Option Int :=
  match out.result with
  | Except.ok (CallRes.promise (Except.ok (Val.int i))) => some i
  | _ => none

/-- Registry-mutating operations available on a wrapper, including the
removers returned by addDecorator (remDec), addHook (remHk) and decorateAll
(remAll - for a fixed fns dictionary the collected removers are exactly one
removeDecorator per fns key, in key order). -/
inductive Op where
  | addDec : String → Nat → Op
  | remDec : String → Nat → Op
  | addHk : Phase → String → Nat → Op
  | remHk : Phase → String → Nat → Op
  | decAll : Nat → Op
  | remAll : Nat → Op

/-- Apply one operation, returning the thrown error (if any) and the state. -/
def applyOp (env : Env) : Op → DapiState → Option JsErr × DapiState
  | Op.addDec k d, st => addDecorator env k d st
  | Op.remDec k d, st => (none, removeDecoratorCore k d st)
  | Op.addHk ph k h, st => addHook env ph k h st
  | Op.remHk ph k h, st => removeHook ph k h st
  | Op.decAll d, st => ((decorateAll env d st).1, (decorateAll env d st).2.1)
  | Op.remAll d, st =>
    (none, runRemovers ((akeys env.fns).map (fun k => (k, d))) st)

/-- Run a sequence of operations; none when some operation threw. -/
def runOps (env : Env) : List Op → DapiState → Option DapiState
  | [], st => some st
  | o :: os, st =>
    match applyOp env o st with
    | (some _, _) => none
    | (none, st') => runOps env os st'

/-- The registry invariant of claim C10: a key is decorated exactly when it
has decorators or hooks, decorator lists are non-empty, and hook records
hold at least one hook. -/
def ClaimInv (st : DapiState) : Prop :=
  (∀ k ∈ st.decoratedFns,
    (alookup st.decorators k).isSome ∨ (alookup st.hooks k).isSome) ∧
  (∀ kv ∈ st.decorators, kv.1 ∈ st.decoratedFns ∧ kv.2 ≠ []) ∧
  (∀ kr ∈ st.hooks, kr.1 ∈ st.decoratedFns ∧ (kr.2.pre ≠ [] ∨ kr.2.post ≠ []))

/-- Strengthened invariant: the claim invariant together with uniqueness of
the map keys and of the decorated-keys list (JS objects cannot hold a key
twice and decoratedFns only receives keys it does not contain). -/
def WFx (st : DapiState) : Prop :=
  ClaimInv st ∧ (akeys st.decorators).Nodup ∧ (akeys st.hooks).Nodup
    ∧ st.decoratedFns.Nodup

/-- Decorators-map transformation performed by a successful addDecorator. -/
def decAddMap (k : String) (d : Nat) (l : List (String × List Nat)) :
    List (String × List Nat) :=
  aset l k (((alookup l k).getD []) ++ [d])

/-- Decorators-map transformation performed by removeDecorator. -/
def decRemMap (k : String) (d : Nat) (l : List (String × List Nat)) :
    List (String × List Nat) :=
  match alookup l k with
  | none => l
  | some lk =>
    if eraseFirst lk d = [] then adelete l k else aset l k (eraseFirst lk d)

/-- Dependency bundle used by the concrete scenarios. -/
def d0 : List (String × Val) := [("foo", Val.str "bar")]

/-- A Dapi function that ignores receiver and arguments and returns 5. -/
def cmd5 : Recv → List Val → CmdRes := fun _ _ => CmdRes.ret (Val.int 5)

/-- Concrete decorator behaviours: identity 1 records its invocation and adds
one to an integer result, identity 2 records its invocation and doubles an
integer result; both call the next callable with the received arguments. -/
def decSemX : Nat → Sem → Sem
  | 1, next => fun args =>
    let r := next args
    { r with
      sync := Event.decorEv 1 args :: r.sync,
      result :=
        match r.result with
        | Except.ok (CallRes.v (Val.int i)) => Except.ok (CallRes.v (Val.int (i + 1)))
        | x => x }
  | 2, next => fun args =>
    let r := next args
    { r with
      sync := Event.decorEv 2 args :: r.sync,
      result :=
        match r.result with
        | Except.ok (CallRes.v (Val.int i)) => Except.ok (CallRes.v (Val.int (2 * i)))
        | x => x }
  | _, next => next

/-- Environment with one function key and the two decorators above. -/
def envA : Env :=
  { fns := [("k", cmd5)], decSem := decSemX, hookSem := fun _ _ => none,
    baseFnProps := [] }

/-- Wrapper state after registering decorator 1 and then decorator 2 on key
k of envA. -/
def stA : DapiState :=
  { deps := d0, defnDeps := d0, decorators := [("k", [1, 2])], hooks := [],
    decoratedFns := ["k"] }

/-- Environment with one asynchronous function key resolving to 1; hook
identity 5 throws error 42, every other hook returns normally. -/
def envH : Env :=
  { fns := [("k", fun _ _ => CmdRes.promiseRes (Val.int 1))],
    decSem := fun _ next => next,
    hookSem := fun i _ => if i = 5 then some 42 else none,
    baseFnProps := [] }

/-- Wrapper state of envH after addPreHook(k, hook 7) and
addPostHook(k, hook 5). -/
def stH : DapiState :=
  { deps := d0, defnDeps := d0, decorators := [],
    hooks := [("k", ⟨[7], [5]⟩)], decoratedFns := ["k"] }

/-- Environment with one function key whose decorator identity 9 records
its invocation and throws error 77 without calling the next callable. -/
def envT : Env :=
  { fns := [("k", cmd5)],
    decSem := fun i next args =>
      if i = 9 then ⟨[Event.decorEv 9 args], Except.error 77, [], []⟩
      else next args,
    hookSem := fun _ _ => none,
    baseFnProps := [] }

/-- Wrapper state of envT after addDecorator(k, decorator 9). -/
def stT : DapiState :=
  { deps := d0, defnDeps := d0, decorators := [("k", [9])], hooks := [],
    decoratedFns := ["k"] }

/-- Checks that a registration outcome is a thrown TypeError. -/
def isTypeErrOpt : Option JsErr → Bool
  | some (JsErr.typeError _) => true
  | _ => false

/-- A concrete operation sequence: add a pre-hook and a decorator on key k,
then remove both through the ops the removers perform. -/
def opsW : List Op :=
  [Op.addHk Phase.pre "k" 1, Op.addDec "k" 2, Op.remDec "k" 2,
    Op.remHk Phase.pre "k" 1]

section AssocLemmas

variable {α : Type}

theorem alookup_aset_self (l : List (String × α)) (k : String) (v : α) :
    alookup (aset l k v) k = some v := by
  induction l with
  | nil => simp [aset, alookup]
  | cons kv rest ih =>
    obtain ⟨k1, v1⟩ := kv
    by_cases h : k1 = k
    · simp [aset, alookup, h]
    · simp [aset, alookup, h, ih]

theorem alookup_aset_ne (l : List (String × α)) {k k' : String} (v : α)
    (h : k ≠ k') : alookup (aset l k v) k' = alookup l k' := by
  induction l with
  | nil => simp [aset, alookup, h]
  | cons kv rest ih =>
    obtain ⟨k1, v1⟩ := kv
    by_cases h1 : k1 = k
    · subst h1; simp [aset, alookup, h]
    · simp [aset, alookup, h1, ih]

theorem aset_of_lookup_none {l : List (String × α)} {k : String}
    (h : alookup l k = none) (v : α) : aset l k v = l ++ [(k, v)] := by
  induction l with
  | nil => simp [aset]
  | cons kv rest ih =>
    obtain ⟨k1, v1⟩ := kv
    by_cases h1 : k1 = k
    · simp [alookup, h1] at h
    · simp [alookup, h1] at h
      simp [aset, h1, ih h]

theorem aset_of_lookup_some {l : List (String × α)} {k : String} {v : α}
    (h : alookup l k = some v) : aset l k v = l := by
  induction l with
  | nil => simp [alookup] at h
  | cons kv rest ih =>
    obtain ⟨k1, v1⟩ := kv
    by_cases h1 : k1 = k
    · subst h1
      simp [alookup] at h
      simp [aset, h]
    · simp [alookup, h1] at h
      simp [aset, h1, ih h]

theorem alookup_adelete_ne (l : List (String × α)) {k k' : String}
    (h : k ≠ k') : alookup (adelete l k) k' = alookup l k' := by
  induction l with
  | nil => simp [adelete]
  | cons kv rest ih =>
    obtain ⟨k1, v1⟩ := kv
    by_cases h1 : k1 = k
    · subst h1; simp [adelete, alookup, h]
    · simp [adelete, alookup, h1, ih]

theorem alookup_eq_none_of_forall_not_mem {l : List (String × α)} {k : String}
    (h : ∀ v, (k, v) ∉ l) : alookup l k = none := by
  induction l with
  | nil => simp [alookup]
  | cons kv rest ih =>
    obtain ⟨k1, v1⟩ := kv
    have h1 : ¬ k1 = k := by rintro rfl; exact h v1 (by simp)
    simp [alookup, h1]
    exact ih (fun v hv => h v (by simp [hv]))

theorem alookup_none_of_not_mem_akeys {l : List (String × α)} {k : String}
    (h : k ∉ akeys l) : alookup l k = none := by
  refine alookup_eq_none_of_forall_not_mem (fun v hv => h ?_)
  have : (k, v).1 ∈ l.map Prod.fst := List.mem_map_of_mem Prod.fst hv
  simpa [akeys] using this

theorem mem_akeys_of_lookup_isSome {l : List (String × α)} {k : String}
    (h : (alookup l k).isSome) : k ∈ akeys l := by
  by_contra hc
  rw [alookup_none_of_not_mem_akeys hc] at h
  simp at h

theorem alookup_adelete_self {l : List (String × α)} {k : String}
    (h : (akeys l).Nodup) : alookup (adelete l k) k = none := by
  induction l with
  | nil => simp [adelete, alookup]
  | cons kv rest ih =>
    obtain ⟨k1, v1⟩ := kv
    have h2 : k1 ∉ akeys rest ∧ (akeys rest).Nodup := by
      simpa [akeys] using h
    by_cases h1 : k1 = k
    · subst h1
      simp [adelete, alookup_none_of_not_mem_akeys h2.1]
    · simp [adelete, alookup, h1, ih h2.2]

theorem adelete_of_lookup_none {l : List (String × α)} {k : String}
    (h : alookup l k = none) : adelete l k = l := by
  induction l with
  | nil => simp [adelete]
  | cons kv rest ih =>
    obtain ⟨k1, v1⟩ := kv
    by_cases h1 : k1 = k
    · simp [alookup, h1] at h
    · simp [alookup, h1] at h
      simp [adelete, h1, ih h]

theorem adelete_append_single {l : List (String × α)} {k : String}
    (h : k ∉ akeys l) (v : α) : adelete (l ++ [(k, v)]) k = l := by
  induction l with
  | nil => simp [adelete]
  | cons kv rest ih =>
    obtain ⟨k1, v1⟩ := kv
    have h1 : ¬ k1 = k := by
      rintro rfl
      exact h (by simp [akeys])
    have h2 : k ∉ akeys rest := fun hm => h (by simp [akeys] at hm ⊢; tauto)
    simp [adelete, h1, ih h2]

theorem mem_of_mem_aset {l : List (String × α)} {k : String} {v : α}
    {kv : String × α} (h : kv ∈ aset l k v) : kv = (k, v) ∨ kv ∈ l := by
  induction l with
  | nil => simpa [aset] using h
  | cons kw rest ih =>
    obtain ⟨k1, v1⟩ := kw
    by_cases h1 : k1 = k
    · subst h1
      rcases (by simpa [aset] using h : kv = (k1, v) ∨ kv ∈ rest) with h2 | h2
      · exact Or.inl (by simp [h2])
      · exact Or.inr (by simp [h2])
    · rcases (by simpa [aset, h1] using h :
          kv = (k1, v1) ∨ kv ∈ aset rest k v) with h2 | h2
      · exact Or.inr (by simp [h2])
      · rcases ih h2 with h3 | h3
        · exact Or.inl h3
        · exact Or.inr (by simp [h3])

theorem mem_of_mem_adelete {l : List (String × α)} {k : String}
    {kv : String × α} (h : kv ∈ adelete l k) : kv ∈ l := by
  induction l with
  | nil => simpa [adelete] using h
  | cons kw rest ih =>
    obtain ⟨k1, v1⟩ := kw
    by_cases h1 : k1 = k
    · subst h1
      simp [adelete] at h
      simp [h]
    · rcases (by simpa [adelete, h1] using h :
          kv = (k1, v1) ∨ kv ∈ adelete rest k) with h2 | h2
      · simp [h2]
      · simp [ih h2]

theorem mem_of_alookup_eq_some {l : List (String × α)} {k : String} {v : α}
    (h : alookup l k = some v) : (k, v) ∈ l := by
  induction l with
  | nil => simp [alookup] at h
  | cons kw rest ih =>
    obtain ⟨k1, v1⟩ := kw
    by_cases h1 : k1 = k
    · subst h1
      simp [alookup] at h
      simp [h]
    · simp [alookup, h1] at h
      simp [ih h]

theorem alookup_isSome_of_mem {l : List (String × α)} {k : String} {v : α}
    (h : (k, v) ∈ l) : (alookup l k).isSome := by
  induction l with
  | nil => simp at h
  | cons kw rest ih =>
    obtain ⟨k1, v1⟩ := kw
    by_cases h1 : k1 = k
    · simp [alookup, h1]
    · rcases (by simpa using h : (k = k1 ∧ v = v1) ∨ (k, v) ∈ rest) with h2 | h2
      · exact absurd h2.1.symm h1
      · simp [alookup, h1, ih h2]

theorem akeys_aset_of_lookup_isSome {l : List (String × α)} {k : String}
    (h : (alookup l k).isSome) (v : α) : akeys (aset l k v) = akeys l := by
  induction l with
  | nil => simp [alookup] at h
  | cons kw rest ih =>
    obtain ⟨k1, v1⟩ := kw
    by_cases h1 : k1 = k
    · subst h1; simp [aset, akeys]
    · simp [alookup, h1] at h
      simp [aset, akeys, h1] at ih ⊢
      exact ih h

theorem alookup_isSome_of_mem_akeys {l : List (String × α)} {k : String}
    (h : k ∈ akeys l) : (alookup l k).isSome := by
  have h2 : ∃ v, (k, v) ∈ l := by simpa [akeys] using h
  obtain ⟨v, hv⟩ := h2
  exact alookup_isSome_of_mem hv

theorem akeys_append (l l' : List (String × α)) :
    akeys (l ++ l') = akeys l ++ akeys l' := by
  simp [akeys]

theorem nodup_akeys_aset {l : List (String × α)} {k : String}
    (h : (akeys l).Nodup) (v : α) : (akeys (aset l k v)).Nodup := by
  rcases hs : alookup l k with _ | w
  · rw [aset_of_lookup_none hs]
    rw [akeys_append]
    refine List.Nodup.append h (by simp [akeys]) ?_
    intro a ha hb
    have hak : a = k := by simpa [akeys] using hb
    subst hak
    have := alookup_isSome_of_mem_akeys ha
    rw [hs] at this
    simp at this
  · rw [akeys_aset_of_lookup_isSome (by simp [hs]) v]
    exact h

theorem mem_akeys_adelete {l : List (String × α)} {k k1 : String}
    (h : k1 ∈ akeys (adelete l k)) : k1 ∈ akeys l := by
  have h2 : ∃ v, (k1, v) ∈ adelete l k := by simpa [akeys] using h
  obtain ⟨v, hv⟩ := h2
  have hm : (k1, v) ∈ l := mem_of_mem_adelete hv
  have h3 : ∃ v, (k1, v) ∈ l := ⟨v, hm⟩
  simpa [akeys] using h3

theorem nodup_akeys_adelete {l : List (String × α)} {k : String}
    (h : (akeys l).Nodup) : (akeys (adelete l k)).Nodup := by
  induction l with
  | nil => simp [adelete, akeys]
  | cons kw rest ih =>
    obtain ⟨k1, v1⟩ := kw
    have h2 : k1 ∉ akeys rest ∧ (akeys rest).Nodup := by
      simpa [akeys] using h
    by_cases h1 : k1 = k
    · subst h1
      simpa [adelete] using h2.2
    · have hgoal : akeys ((k1, v1) :: adelete rest k) =
          k1 :: akeys (adelete rest k) := by simp [akeys]
    -- adelete keeps the head entry when its key differs
      simp only [adelete, h1, if_false]
      rw [hgoal]
      refine List.nodup_cons.mpr ⟨?_, ih h2.2⟩
      intro hm
      exact h2.1 (mem_akeys_adelete hm)

theorem not_mem_akeys_of_lookup_none {l : List (String × α)} {k : String}
    (h : alookup l k = none) : k ∉ akeys l := by
  intro hm
  have := alookup_isSome_of_mem_akeys hm
  rw [h] at this
  simp at this

theorem aset_aset_same (l : List (String × α)) (k : String) (v v' : α) :
    aset (aset l k v) k v' = aset l k v' := by
  induction l with
  | nil => simp [aset]
  | cons kw rest ih =>
    obtain ⟨k1, v1⟩ := kw
    by_cases h1 : k1 = k
    · subst h1; simp [aset]
    · simp [aset, h1, ih]

theorem adelete_aset_ne {l : List (String × α)} {k k' : String} (h : k ≠ k')
    (v : α) : adelete (aset l k' v) k = aset (adelete l k) k' v := by
  have hs : ¬ k' = k := fun he => h he.symm
  induction l with
  | nil => simp [aset, adelete, hs]
  | cons kw rest ih =>
    obtain ⟨k1, v1⟩ := kw
    by_cases h1 : k1 = k'
    · subst h1
      simp [aset, adelete, hs]
    · by_cases h2 : k1 = k
      · subst h2
        simp [aset, adelete, h1]
      · simp [aset, adelete, h1, h2, ih]

theorem aset_aset_ne_of_lookup_isSome {l : List (String × α)} {k k' : String}
    (hs : (alookup l k).isSome) (h : k ≠ k') (v v' : α) :
    aset (aset l k v) k' v' = aset (aset l k' v') k v := by
  have hsym : ¬ k' = k := fun he => h he.symm
  induction l with
  | nil => simp [alookup] at hs
  | cons kw rest ih =>
    obtain ⟨k1, v1⟩ := kw
    by_cases h1 : k1 = k
    · subst h1
      simp [aset, hsym, h]
    · by_cases h2 : k1 = k'
      · subst h2
        simp [aset, h1, hsym]
      · simp [alookup, h1] at hs
        simp [aset, h1, h2, ih hs]

end AssocLemmas

section EraseFirstLemmas

variable {β : Type} [DecidableEq β]

theorem eraseFirst_of_not_mem {l : List β} {a : β} (h : a ∉ l) :
    eraseFirst l a = l := by
  induction l with
  | nil => simp [eraseFirst]
  | cons x xs ih =>
    simp at h
    have h1 : ¬ x = a := fun he => h.1 he.symm
    simp [eraseFirst, h1, ih h.2]

theorem mem_of_mem_eraseFirst {l : List β} {a x : β}
    (h : x ∈ eraseFirst l a) : x ∈ l := by
  induction l with
  | nil => simpa [eraseFirst] using h
  | cons y ys ih =>
    by_cases h1 : y = a
    · subst h1
      simp [eraseFirst] at h
      simp [h]
    · rcases (by simpa [eraseFirst, h1] using h : x = y ∨ x ∈ eraseFirst ys a)
        with h2 | h2
      · simp [h2]
      · simp [ih h2]

theorem eraseFirst_append_not_mem {l : List β} {a : β} (h : a ∉ l) :
    eraseFirst (l ++ [a]) a = l := by
  induction l with
  | nil => simp [eraseFirst]
  | cons x xs ih =>
    simp at h
    have h1 : ¬ x = a := fun he => h.1 he.symm
    simp [eraseFirst, h1, ih h.2]

theorem eraseFirst_append_single_ne {l : List β} {a b : β} (h : b ≠ a) :
    eraseFirst (l ++ [b]) a = eraseFirst l a ++ [b] := by
  induction l with
  | nil => simp [eraseFirst, h]
  | cons x xs ih =>
    by_cases h1 : x = a
    · subst h1; simp [eraseFirst]
    · simp [eraseFirst, h1, ih]

theorem nodup_eraseFirst {l : List β} (h : l.Nodup) (a : β) :
    (eraseFirst l a).Nodup := by
  induction l with
  | nil => simp [eraseFirst]
  | cons x xs ih =>
    simp at h
    by_cases h1 : x = a
    · subst h1; simpa [eraseFirst] using h.2
    · simp [eraseFirst, h1]
      exact ⟨fun hm => h.1 (mem_of_mem_eraseFirst hm), ih h.2⟩

theorem mem_eraseFirst_ne {l : List β} {a b : β} (h : b ≠ a) :
    b ∈ eraseFirst l a ↔ b ∈ l := by
  induction l with
  | nil => simp [eraseFirst]
  | cons x xs ih =>
    by_cases h1 : x = a
    · subst h1
      simp [eraseFirst, h]
    · simp [eraseFirst, h1, ih]

end EraseFirstLemmas

/-- Componentwise equality of wrapper states. -/
theorem DapiState.ext' {s t : DapiState} (h1 : s.deps = t.deps)
    (h2 : s.defnDeps = t.defnDeps) (h3 : s.decorators = t.decorators)
    (h4 : s.hooks = t.hooks) (h5 : s.decoratedFns = t.decoratedFns) :
    s = t := by
  cases s; cases t
  simp_all

section CoreLemmas

theorem addDecCore_eq_mapForm (env : Env) (k : String) (d : Nat)
    (st : DapiState) :
    addDecCore env k d st
      = makeDecorable env k { st with decorators := decAddMap k d st.decorators } := by
  rfl

theorem removeDecoratorCore_eq_mapForm (k : String) (d : Nat) (st : DapiState) :
    removeDecoratorCore k d st
      = unmakeDecorable k { st with decorators := decRemMap k d st.decorators } := by
  unfold removeDecoratorCore decRemMap
  rcases h : alookup st.decorators k with _ | lk
  · simp
  · simp only []
    by_cases he : eraseFirst lk d = []
    · simp [he]
    · simp [he]

theorem makeDecorable_decorators (env : Env) (k : String) (s : DapiState) :
    (makeDecorable env k s).decorators = s.decorators := by
  unfold makeDecorable
  split <;> rfl

theorem makeDecorable_deps (env : Env) (k : String) (s : DapiState) :
    (makeDecorable env k s).deps = s.deps := by
  unfold makeDecorable
  split <;> rfl

theorem makeDecorable_defnDeps (env : Env) (k : String) (s : DapiState) :
    (makeDecorable env k s).defnDeps = s.defnDeps := by
  unfold makeDecorable
  split <;> rfl

theorem makeDecorable_hooks (env : Env) (k : String) (s : DapiState) :
    (makeDecorable env k s).hooks = s.hooks := by
  unfold makeDecorable
  split <;> rfl

theorem unmakeDecorable_decorators (k : String) (s : DapiState) :
    (unmakeDecorable k s).decorators = s.decorators := by
  unfold unmakeDecorable
  split <;> rfl

theorem unmakeDecorable_deps (k : String) (s : DapiState) :
    (unmakeDecorable k s).deps = s.deps := by
  unfold unmakeDecorable
  split <;> rfl

theorem unmakeDecorable_defnDeps (k : String) (s : DapiState) :
    (unmakeDecorable k s).defnDeps = s.defnDeps := by
  unfold unmakeDecorable
  split <;> rfl

theorem unmakeDecorable_hooks (k : String) (s : DapiState) :
    (unmakeDecorable k s).hooks = s.hooks := by
  unfold unmakeDecorable
  split <;> rfl

theorem makeDecorable_set_decorators (env : Env) (k : String) (s : DapiState)
    (X : List (String × List Nat)) :
    { makeDecorable env k s with decorators := X }
      = makeDecorable env k { s with decorators := X } := by
  unfold makeDecorable
  by_cases h : k ∈ s.decoratedFns ∨ (alookup env.fns k).isNone = true
  · rw [if_pos h]
    exact (if_pos h).symm
  · rw [if_neg h]
    exact (if_neg h).symm

theorem unmakeDecorable_set_decorators (k : String) (s : DapiState)
    (X : List (String × List Nat))
    (hX : alookup X k = alookup s.decorators k) :
    { unmakeDecorable k s with decorators := X }
      = unmakeDecorable k { s with decorators := X } := by
  unfold unmakeDecorable
  by_cases h : k ∉ s.decoratedFns ∨ (alookup s.decorators k).isSome = true
      ∨ (alookup s.hooks k).isSome = true
  · rw [if_pos h]
    have h2 : k ∉ s.decoratedFns ∨ (alookup X k).isSome = true
        ∨ (alookup s.hooks k).isSome = true := by rw [hX]; exact h
    exact (if_pos h2).symm
  · rw [if_neg h]
    have h2 : ¬ (k ∉ s.decoratedFns ∨ (alookup X k).isSome = true
        ∨ (alookup s.hooks k).isSome = true) := by rw [hX]; exact h
    exact (if_neg h2).symm

theorem decMaps_comm {k k' : String} (hne : k ≠ k') (d d' : Nat)
    (l : List (String × List Nat)) :
    decRemMap k d (decAddMap k' d' l) = decAddMap k' d' (decRemMap k d l) := by
  have hne' : k' ≠ k := fun he => hne he.symm
  unfold decRemMap decAddMap
  rw [alookup_aset_ne l _ hne']
  rcases hd : alookup l k with _ | lk
  · simp only [hd]
  · simp only [hd]
    by_cases he : eraseFirst lk d = []
    · simp only [if_pos he]
      rw [adelete_aset_ne hne, alookup_adelete_ne l hne]
    · simp only [if_neg he]
      rw [alookup_aset_ne l _ hne,
        aset_aset_ne_of_lookup_isSome (by simp [hd]) hne]

theorem make_unmake_comm (env : Env) {k k' : String} (hne : k ≠ k')
    (s : DapiState) :
    unmakeDecorable k (makeDecorable env k' s)
      = makeDecorable env k' (unmakeDecorable k s) := by
  have hne' : k' ≠ k := fun he => hne he.symm
  by_cases cm : k' ∈ s.decoratedFns ∨ (alookup env.fns k').isNone = true
  · have hM : makeDecorable env k' s = s := by
      unfold makeDecorable; exact if_pos cm
    by_cases cu : k ∉ s.decoratedFns ∨ (alookup s.decorators k).isSome = true
        ∨ (alookup s.hooks k).isSome = true
    · have hU : unmakeDecorable k s = s := by
        unfold unmakeDecorable; exact if_pos cu
      rw [hM, hU, hM]
    · have hU : unmakeDecorable k s
          = { s with decoratedFns := eraseFirst s.decoratedFns k } := by
        unfold unmakeDecorable; exact if_neg cu
      rw [hM, hU]
      have cm2 : k' ∈ eraseFirst s.decoratedFns k
          ∨ (alookup env.fns k').isNone = true := by
        rcases cm with h | h
        · exact Or.inl ((mem_eraseFirst_ne hne').mpr h)
        · exact Or.inr h
      exact (by unfold makeDecorable; exact if_pos cm2 :
        makeDecorable env k' { s with decoratedFns := eraseFirst s.decoratedFns k }
          = { s with decoratedFns := eraseFirst s.decoratedFns k }).symm
  · have hM : makeDecorable env k' s
        = { s with decoratedFns := s.decoratedFns ++ [k'] } := by
      unfold makeDecorable; exact if_neg cm
    by_cases cu : k ∉ s.decoratedFns ∨ (alookup s.decorators k).isSome = true
        ∨ (alookup s.hooks k).isSome = true
    · have hU : unmakeDecorable k s = s := by
        unfold unmakeDecorable; exact if_pos cu
      rw [hM, hU, hM]
      have cu2 : k ∉ s.decoratedFns ++ [k'] ∨ (alookup s.decorators k).isSome = true
          ∨ (alookup s.hooks k).isSome = true := by
        rcases cu with h | h
        · exact Or.inl (by simp [h, hne])
        · exact Or.inr h
      exact (by unfold unmakeDecorable; exact if_pos cu2 :
        unmakeDecorable k { s with decoratedFns := s.decoratedFns ++ [k'] }
          = { s with decoratedFns := s.decoratedFns ++ [k'] })
    · have hU : unmakeDecorable k s
          = { s with decoratedFns := eraseFirst s.decoratedFns k } := by
        unfold unmakeDecorable; exact if_neg cu
      rw [hM, hU]
      have cu2 : ¬ (k ∉ s.decoratedFns ++ [k'] ∨ (alookup s.decorators k).isSome = true
          ∨ (alookup s.hooks k).isSome = true) := by
        intro hc
        apply cu
        rcases hc with h | h
        · exact Or.inl (fun hm => h (by simp [hm]))
        · exact Or.inr h
      have cm2 : ¬ (k' ∈ eraseFirst s.decoratedFns k
          ∨ (alookup env.fns k').isNone = true) := by
        intro hc
        apply cm
        rcases hc with h | h
        · exact Or.inl ((mem_eraseFirst_ne hne').mp h)
        · exact Or.inr h
      have hL : unmakeDecorable k { s with decoratedFns := s.decoratedFns ++ [k'] }
          = { s with decoratedFns := eraseFirst (s.decoratedFns ++ [k']) k } := by
        unfold unmakeDecorable; exact if_neg cu2
      have hR : makeDecorable env k'
            { s with decoratedFns := eraseFirst s.decoratedFns k }
          = { s with decoratedFns := eraseFirst s.decoratedFns k ++ [k'] } := by
        unfold makeDecorable; exact if_neg cm2
      rw [hL, hR]
      refine DapiState.ext' rfl rfl rfl rfl ?_
      simp [eraseFirst_append_single_ne hne']

theorem remDec_addDec_comm (env : Env) {k k' : String} (hne : k ≠ k')
    (d d' : Nat) (st : DapiState) :
    removeDecoratorCore k d (addDecCore env k' d' st)
      = addDecCore env k' d' (removeDecoratorCore k d st) := by
  have hne' : k' ≠ k := fun he => hne he.symm
  have h2 : removeDecoratorCore k d (addDecCore env k' d' st)
      = unmakeDecorable k (makeDecorable env k'
          { st with decorators := decRemMap k d (decAddMap k' d' st.decorators) }) := by
    rw [removeDecoratorCore_eq_mapForm, addDecCore_eq_mapForm,
      makeDecorable_decorators, makeDecorable_set_decorators]
  have hX : alookup (decAddMap k' d' (decRemMap k d st.decorators)) k
      = alookup (decRemMap k d st.decorators) k := by
    unfold decAddMap
    exact alookup_aset_ne _ _ hne'
  have h3 : addDecCore env k' d' (removeDecoratorCore k d st)
      = makeDecorable env k' (unmakeDecorable k
          { st with decorators := decAddMap k' d' (decRemMap k d st.decorators) }) := by
    rw [removeDecoratorCore_eq_mapForm, addDecCore_eq_mapForm,
      unmakeDecorable_decorators, unmakeDecorable_set_decorators _ _ _ hX]
  rw [h2, h3, decMaps_comm hne, make_unmake_comm env hne]

theorem decRemMap_of_lookup (k : String) (d : Nat)
    {l : List (String × List Nat)} {lk : List Nat}
    (h : alookup l k = some lk) :
    decRemMap k d l = if eraseFirst lk d = [] then adelete l k
      else aset l k (eraseFirst lk d) := by
  unfold decRemMap
  rw [h]

theorem remDec_addDec_cancel (env : Env) (k : String) (d : Nat)
    (st : DapiState) (hwf : WFx st) (hk : (alookup env.fns k).isSome)
    (hfresh : d ∉ (alookup st.decorators k).getD []) :
    removeDecoratorCore k d (addDecCore env k d st) = st := by
  obtain ⟨⟨hinv1, hinv2, hinv3⟩, hnd, hnh, hndf⟩ := hwf
  rcases hd : alookup st.decorators k with _ | l
  · have hmap : decRemMap k d (aset st.decorators k [d]) = st.decorators := by
      rw [decRemMap_of_lookup k d (alookup_aset_self st.decorators k [d])]
      rw [if_pos (by simp [eraseFirst])]
      rw [aset_of_lookup_none hd,
        adelete_append_single (not_mem_akeys_of_lookup_none hd)]
    rcases hhk : alookup st.hooks k with _ | r
    · have hkND : k ∉ st.decoratedFns := by
        intro hm
        rcases hinv1 k hm with hs | hs
        · rw [hd] at hs; simp at hs
        · rw [hhk] at hs; simp at hs
      have hadd : addDecCore env k d st
          = { st with decorators := aset st.decorators k [d],
                      decoratedFns := st.decoratedFns ++ [k] } := by
        unfold addDecCore makeDecorable
        rw [hd]
        refine if_neg ?_
        intro hc
        rcases hc with h | h
        · exact hkND h
        · rw [Option.isNone_iff_eq_none] at h
          rw [h] at hk; simp at hk
      have hstep : (addDecCore env k d st).decorators
          = aset st.decorators k [d] := by rw [hadd]
      rw [removeDecoratorCore_eq_mapForm, hstep, hmap, hadd]
      have hcond : ¬ (k ∉ st.decoratedFns ++ [k]
          ∨ (alookup st.decorators k).isSome = true
          ∨ (alookup st.hooks k).isSome = true) := by
        intro hc
        rcases hc with h | h
        · exact h (by simp)
        · rcases h with h | h
          · rw [hd] at h; simp at h
          · rw [hhk] at h; simp at h
      have hun : unmakeDecorable k
            { st with decorators := st.decorators,
                      decoratedFns := st.decoratedFns ++ [k] }
          = { st with decorators := st.decorators,
                      decoratedFns := eraseFirst (st.decoratedFns ++ [k]) k } := by
        unfold unmakeDecorable
        exact if_neg hcond
      refine Eq.trans (by exact hun) ?_
      refine DapiState.ext' rfl rfl rfl rfl ?_
      simp [eraseFirst_append_not_mem hkND]
    · have hkD : k ∈ st.decoratedFns :=
        (hinv3 _ (mem_of_alookup_eq_some hhk)).1
      have hadd : addDecCore env k d st
          = { st with decorators := aset st.decorators k [d] } := by
        unfold addDecCore makeDecorable
        rw [hd]
        exact if_pos (Or.inl hkD)
      have hstep : (addDecCore env k d st).decorators
          = aset st.decorators k [d] := by rw [hadd]
      rw [removeDecoratorCore_eq_mapForm, hstep, hmap, hadd]
      have hcond : k ∉ st.decoratedFns
          ∨ (alookup st.decorators k).isSome = true
          ∨ (alookup st.hooks k).isSome = true := by
        refine Or.inr (Or.inr ?_)
        rw [hhk]; simp
      exact (by unfold unmakeDecorable; exact if_pos hcond :
        unmakeDecorable k { st with decorators := st.decorators }
          = { st with decorators := st.decorators })
  · have hmem := mem_of_alookup_eq_some hd
    have hkD : k ∈ st.decoratedFns := (hinv2 _ hmem).1
    have hlne : l ≠ [] := (hinv2 _ hmem).2
    have hfr : d ∉ l := by rw [hd] at hfresh; simpa using hfresh
    have hmap : decRemMap k d (aset st.decorators k (l ++ [d]))
        = st.decorators := by
      rw [decRemMap_of_lookup k d (alookup_aset_self st.decorators k (l ++ [d]))]
      rw [eraseFirst_append_not_mem hfr, if_neg hlne]
      rw [aset_aset_same, aset_of_lookup_some hd]
    have hadd : addDecCore env k d st
        = { st with decorators := aset st.decorators k (l ++ [d]) } := by
      unfold addDecCore makeDecorable
      rw [hd]
      exact if_pos (Or.inl hkD)
    have hstep : (addDecCore env k d st).decorators
        = aset st.decorators k (l ++ [d]) := by rw [hadd]
    rw [removeDecoratorCore_eq_mapForm, hstep, hmap, hadd]
    have hcond : k ∉ st.decoratedFns
        ∨ (alookup st.decorators k).isSome = true
        ∨ (alookup st.hooks k).isSome = true := by
      refine Or.inr (Or.inl ?_)
      rw [hd]; simp
    exact (by unfold unmakeDecorable; exact if_pos hcond :
      unmakeDecorable k { st with decorators := st.decorators }
        = { st with decorators := st.decorators })

theorem addDecorator_of_fns_some (env : Env) (k : String) (d : Nat)
    (st : DapiState) (hk : (alookup env.fns k).isSome) :
    addDecorator env k d st = (none, addDecCore env k d st) := by
  unfold addDecorator
  rw [if_neg (by simp [isFunctionProp, hk]),
    if_neg (by
      simp only [Option.isNone_iff_eq_none]
      intro he
      rw [he] at hk
      simp at hk)]

theorem decorateAllGo_spec (env : Env) (d : Nat) (ks : List String) :
    ∀ (st : DapiState) (acc : List (String × Nat)),
      (∀ k ∈ ks, (alookup env.fns k).isSome) →
      decorateAllGo env d ks st acc
        = (none, ks.foldl (fun s k => addDecCore env k d s) st,
            acc ++ ks.map (fun k => (k, d))) := by
  induction ks with
  | nil =>
    intro st acc _
    simp [decorateAllGo]
  | cons k ks1 ih =>
    intro st acc hks
    have hk : (alookup env.fns k).isSome := hks k (by simp)
    have hstep : decorateAllGo env d (k :: ks1) st acc
        = decorateAllGo env d ks1 (addDecCore env k d st) (acc ++ [(k, d)]) := by
      simp only [decorateAllGo, addDecorator_of_fns_some env k d st hk]
    rw [hstep, ih _ _ (fun k2 hk2 => hks k2 (by simp [hk2]))]
    simp

theorem remDec_foldl_comm (env : Env) (d d' : Nat) {k : String}
    (ks : List String) (hk : k ∉ ks) (s : DapiState) :
    removeDecoratorCore k d (ks.foldl (fun s2 k2 => addDecCore env k2 d' s2) s)
      = ks.foldl (fun s2 k2 => addDecCore env k2 d' s2)
          (removeDecoratorCore k d s) := by
  induction ks generalizing s with
  | nil => rfl
  | cons k1 ks1 ih =>
    simp only [List.foldl_cons]
    have hne : k ≠ k1 := by intro he; exact hk (by simp [he])
    rw [ih (by intro hm; exact hk (by simp [hm]))]
    rw [remDec_addDec_comm env hne]

theorem removers_cancel (env : Env) (d : Nat) (ks : List String)
    (st : DapiState) (hwf : WFx st) (hnd : ks.Nodup)
    (hks : ∀ k ∈ ks, (alookup env.fns k).isSome)
    (hfresh : ∀ kv ∈ st.decorators, d ∉ kv.2) :
    (ks.map (fun k => (k, d))).foldl
        (fun s kd => removeDecoratorCore kd.1 kd.2 s)
        (ks.foldl (fun s k => addDecCore env k d s) st) = st := by
  induction ks generalizing st with
  | nil => rfl
  | cons k ks1 ih =>
    simp only [List.foldl_cons, List.map_cons]
    have hnd1 : k ∉ ks1 ∧ ks1.Nodup := by simpa using hnd
    rw [remDec_foldl_comm env d d ks1 hnd1.1 (addDecCore env k d st)]
    have hfr : d ∉ (alookup st.decorators k).getD [] := by
      rcases hl : alookup st.decorators k with _ | l
      · simp
      · simpa using hfresh _ (mem_of_alookup_eq_some hl)
    rw [remDec_addDec_cancel env k d st hwf (hks k (by simp)) hfr]
    exact ih st hwf hnd1.2 (fun k2 hk2 => hks k2 (by simp [hk2])) hfresh

end CoreLemmas

section CallLemmas

theorem composeChain_nil (env : Env) (st : DapiState) (k : String) (b : Sem) :
    composeChain env st k [] b = b := rfl

theorem composeChain_cons (env : Env) (st : DapiState) (k : String)
    (e : ChainElem) (l : List ChainElem) (b : Sem) :
    composeChain env st k (e :: l) b
      = composeChain env st k l (elemSem env st k e b) := rfl

theorem composeChain_append_single (env : Env) (st : DapiState) (k : String)
    (l : List ChainElem) (e : ChainElem) (b : Sem) :
    composeChain env st k (l ++ [e]) b
      = elemSem env st k e (composeChain env st k l b) := by
  unfold composeChain
  rw [List.foldl_append]
  rfl

theorem callFacade_undecorated (env : Env) (st : DapiState) (k : String)
    (cmd : Recv → List Val → CmdRes) (params : List Val)
    (hc : alookup env.fns k = some cmd) (hu : k ∉ st.decoratedFns) :
    callFacade env st k params
      = { sync := [Event.cmdCall Recv.wrapper (Val.obj st.deps :: params)],
          result := liftCmdRes (cmd Recv.wrapper (Val.obj st.deps :: params)),
          deferred := [], swallowed := [] } := by
  unfold callFacade
  simp only [hc]
  rw [if_neg hu]
  rfl

theorem callFacade_decorated (env : Env) (st : DapiState) (k : String)
    (cmd : Recv → List Val → CmdRes) (params : List Val)
    (hc : alookup env.fns k = some cmd) (hk : k ∈ st.decoratedFns) :
    callFacade env st k params
      = composeChain env st k
          ((if (alookup st.hooks k).isSome then [ChainElem.hook] else [])
            ++ ((alookup st.decorators k).getD []).map ChainElem.decor)
          (baseSem cmd) (Val.obj st.deps :: params) := by
  unfold callFacade
  simp only [hc]
  rw [if_pos hk]
  rcases helems : (if (alookup st.hooks k).isSome then [ChainElem.hook] else [])
      ++ ((alookup st.decorators k).getD []).map ChainElem.decor with _ | ⟨e, rest⟩
  · simp only [helems]
    rfl
  · simp only [helems]

theorem callFacade_hooks_only (env : Env) (st : DapiState) (k : String)
    (cmd : Recv → List Val → CmdRes) (params : List Val)
    (hc : alookup env.fns k = some cmd) (hk : k ∈ st.decoratedFns)
    (hd : alookup st.decorators k = none)
    (hh : (alookup st.hooks k).isSome) :
    callFacade env st k params
      = hookDecSem env st k (baseSem cmd) (Val.obj st.deps :: params) := by
  rw [callFacade_decorated env st k cmd params hc hk, hd]
  simp only [Option.getD_none, List.map_nil, List.append_nil, if_pos hh]
  rfl

theorem runHooks_events (env : Env) (mk : Nat → List Val → Event)
    (hs : List Nat) (args : List Val) :
    ∀ e ∈ (runHooks env mk hs args).1, ∃ i, e = mk i args := by
  induction hs with
  | nil =>
    intro e he
    simp [runHooks] at he
  | cons h1 rest ih =>
    intro e he
    unfold runHooks at he
    rcases hb : env.hookSem h1 args with _ | er
    · rw [hb] at he
      rcases (by simpa using he : e = mk h1 args ∨ e ∈ (runHooks env mk rest args).1)
        with h2 | h2
      · exact ⟨h1, h2⟩
      · exact ih e h2
    · rw [hb] at he
      simp at he
      exact ⟨h1, he⟩

theorem runHooks_all_ok (env : Env) (mk : Nat → List Val → Event)
    (hs : List Nat) (args : List Val)
    (h : ∀ i ∈ hs, env.hookSem i args = none) :
    runHooks env mk hs args = (hs.map (fun i => mk i args), none) := by
  induction hs with
  | nil => simp [runHooks]
  | cons h1 rest ih =>
    have hb : env.hookSem h1 args = none := h h1 (by simp)
    unfold runHooks
    rw [hb, ih (fun i hi => h i (by simp [hi]))]
    simp

theorem hookDecSem_pre_throw (env : Env) (st : DapiState) (k : String)
    (r : HookRec) (next : Sem) (args : List Val) (e : Err)
    (hh : alookup st.hooks k = some r)
    (hpre : (runHooks env Event.preHook r.pre args).2 = some e) :
    hookDecSem env st k next args
      = ⟨(runHooks env Event.preHook r.pre args).1, Except.error e, [], []⟩ := by
  simp [hookDecSem, hh, hpre]

theorem hookDecSem_inner_throw (env : Env) (st : DapiState) (k : String)
    (r : HookRec) (next : Sem) (args : List Val) (e : Err)
    (hh : alookup st.hooks k = some r)
    (hpre : (runHooks env Event.preHook r.pre args).2 = none)
    (hres : (next args).result = Except.error e) :
    hookDecSem env st k next args
      = ⟨(runHooks env Event.preHook r.pre args).1 ++ (next args).sync,
          Except.error e, (next args).deferred, (next args).swallowed⟩ := by
  simp [hookDecSem, hh, hpre, hres]

theorem hookDecSem_ret_ok (env : Env) (st : DapiState) (k : String)
    (r : HookRec) (next : Sem) (args : List Val) (v : Val)
    (hh : alookup st.hooks k = some r)
    (hpre : (runHooks env Event.preHook r.pre args).2 = none)
    (hres : (next args).result = Except.ok (CallRes.v v))
    (hpost : (runHooks env Event.postHook r.post args).2 = none) :
    hookDecSem env st k next args
      = ⟨(runHooks env Event.preHook r.pre args).1 ++ (next args).sync
            ++ (runHooks env Event.postHook r.post args).1,
          Except.ok (CallRes.v v), (next args).deferred,
          (next args).swallowed⟩ := by
  simp [hookDecSem, hh, hpre, hres, hpost]

theorem hookDecSem_ret_post_throw (env : Env) (st : DapiState) (k : String)
    (r : HookRec) (next : Sem) (args : List Val) (v : Val) (e : Err)
    (hh : alookup st.hooks k = some r)
    (hpre : (runHooks env Event.preHook r.pre args).2 = none)
    (hres : (next args).result = Except.ok (CallRes.v v))
    (hpost : (runHooks env Event.postHook r.post args).2 = some e) :
    hookDecSem env st k next args
      = ⟨(runHooks env Event.preHook r.pre args).1 ++ (next args).sync
            ++ (runHooks env Event.postHook r.post args).1,
          Except.error e, (next args).deferred,
          (next args).swallowed⟩ := by
  simp [hookDecSem, hh, hpre, hres, hpost]

theorem hookDecSem_promise_ok (env : Env) (st : DapiState) (k : String)
    (r : HookRec) (next : Sem) (args : List Val) (v : Val)
    (hh : alookup st.hooks k = some r)
    (hpre : (runHooks env Event.preHook r.pre args).2 = none)
    (hres : (next args).result = Except.ok (CallRes.promise (Except.ok v))) :
    hookDecSem env st k next args
      = ⟨(runHooks env Event.preHook r.pre args).1 ++ (next args).sync,
          Except.ok (CallRes.promise (Except.ok v)),
          (next args).deferred ++ (runHooks env Event.postHook r.post args).1,
          (next args).swallowed
            ++ ((runHooks env Event.postHook r.post args).2).toList⟩ := by
  simp [hookDecSem, hh, hpre, hres]

theorem hookDecSem_promise_rej (env : Env) (st : DapiState) (k : String)
    (r : HookRec) (next : Sem) (args : List Val) (e : Err)
    (hh : alookup st.hooks k = some r)
    (hpre : (runHooks env Event.preHook r.pre args).2 = none)
    (hres : (next args).result = Except.ok (CallRes.promise (Except.error e))) :
    hookDecSem env st k next args
      = ⟨(runHooks env Event.preHook r.pre args).1 ++ (next args).sync,
          Except.ok (CallRes.promise (Except.error e)),
          (next args).deferred, (next args).swallowed⟩ := by
  simp [hookDecSem, hh, hpre, hres]

theorem baseSem_eval (cmd : Recv → List Val → CmdRes) (args : List Val) :
    baseSem cmd args
      = ⟨[Event.cmdCall Recv.wrapper args], liftCmdRes (cmd Recv.wrapper args),
          [], []⟩ := rfl

theorem hookDec_base_events (env : Env) (st : DapiState) (k : String)
    (r : HookRec) (cmd : Recv → List Val → CmdRes) (args : List Val)
    (hh : alookup st.hooks k = some r) :
    ∀ e, (e ∈ (hookDecSem env st k (baseSem cmd) args).sync
        ∨ e ∈ (hookDecSem env st k (baseSem cmd) args).deferred) →
      e = Event.cmdCall Recv.wrapper args ∨ (∃ i, e = Event.preHook i args)
        ∨ (∃ i, e = Event.postHook i args) := by
  intro e he
  have hbase : baseSem cmd args
      = ⟨[Event.cmdCall Recv.wrapper args], liftCmdRes (cmd Recv.wrapper args),
          [], []⟩ := rfl
  rcases hpre : (runHooks env Event.preHook r.pre args).2 with _ | e1
  · rcases hres : liftCmdRes (cmd Recv.wrapper args) with e1 | cres
    · rw [hookDecSem_inner_throw env st k r (baseSem cmd) args e1 hh hpre
        (by rw [hbase]; exact hres)] at he
      rcases he with he | he
      · rcases (by simpa [hbase] using he :
            e ∈ (runHooks env Event.preHook r.pre args).1
              ∨ e = Event.cmdCall Recv.wrapper args) with h2 | h2
        · obtain ⟨i, hi⟩ := runHooks_events env Event.preHook r.pre args e h2
          exact Or.inr (Or.inl ⟨i, hi⟩)
        · exact Or.inl h2
      · simp [hbase] at he
    · rcases cres with v | p
      · rcases hpost : (runHooks env Event.postHook r.post args).2 with _ | e2
        · rw [hookDecSem_ret_ok env st k r (baseSem cmd) args v hh hpre
            (by rw [hbase]; exact hres) hpost] at he
          rcases he with he | he
          · rcases (by simpa [hbase] using he :
                e ∈ (runHooks env Event.preHook r.pre args).1
                  ∨ e = Event.cmdCall Recv.wrapper args
                  ∨ e ∈ (runHooks env Event.postHook r.post args).1) with h2 | h2 | h2
            · obtain ⟨i, hi⟩ := runHooks_events env Event.preHook r.pre args e h2
              exact Or.inr (Or.inl ⟨i, hi⟩)
            · exact Or.inl h2
            · obtain ⟨i, hi⟩ := runHooks_events env Event.postHook r.post args e h2
              exact Or.inr (Or.inr ⟨i, hi⟩)
          · simp [hbase] at he
        · rw [hookDecSem_ret_post_throw env st k r (baseSem cmd) args v e2 hh hpre
            (by rw [hbase]; exact hres) hpost] at he
          rcases he with he | he
          · rcases (by simpa [hbase] using he :
                e ∈ (runHooks env Event.preHook r.pre args).1
                  ∨ e = Event.cmdCall Recv.wrapper args
                  ∨ e ∈ (runHooks env Event.postHook r.post args).1) with h2 | h2 | h2
            · obtain ⟨i, hi⟩ := runHooks_events env Event.preHook r.pre args e h2
              exact Or.inr (Or.inl ⟨i, hi⟩)
            · exact Or.inl h2
            · obtain ⟨i, hi⟩ := runHooks_events env Event.postHook r.post args e h2
              exact Or.inr (Or.inr ⟨i, hi⟩)
          · simp [hbase] at he
      · rcases p with e2 | v
        · rw [hookDecSem_promise_rej env st k r (baseSem cmd) args e2 hh hpre
            (by rw [hbase]; exact hres)] at he
          rcases he with he | he
          · rcases (by simpa [hbase] using he :
                e ∈ (runHooks env Event.preHook r.pre args).1
                  ∨ e = Event.cmdCall Recv.wrapper args) with h2 | h2
            · obtain ⟨i, hi⟩ := runHooks_events env Event.preHook r.pre args e h2
              exact Or.inr (Or.inl ⟨i, hi⟩)
            · exact Or.inl h2
          · simp [hbase] at he
        · rw [hookDecSem_promise_ok env st k r (baseSem cmd) args v hh hpre
            (by rw [hbase]; exact hres)] at he
          rcases he with he | he
          · rcases (by simpa [hbase] using he :
                e ∈ (runHooks env Event.preHook r.pre args).1
                  ∨ e = Event.cmdCall Recv.wrapper args) with h2 | h2
            · obtain ⟨i, hi⟩ := runHooks_events env Event.preHook r.pre args e h2
              exact Or.inr (Or.inl ⟨i, hi⟩)
            · exact Or.inl h2
          · rcases (by simpa [hbase] using he :
                e ∈ (runHooks env Event.postHook r.post args).1) with h2
            obtain ⟨i, hi⟩ := runHooks_events env Event.postHook r.post args e h2
            exact Or.inr (Or.inr ⟨i, hi⟩)
  · rw [hookDecSem_pre_throw env st k r (baseSem cmd) args e1 hh hpre] at he
    rcases he with he | he
    · obtain ⟨i, hi⟩ := runHooks_events env Event.preHook r.pre args e he
      exact Or.inr (Or.inl ⟨i, hi⟩)
    · simp at he

end CallLemmas

section InvLemmas

theorem not_mem_eraseFirst_self {β : Type} [DecidableEq β] {l : List β}
    (h : l.Nodup) (a : β) : a ∉ eraseFirst l a := by
  induction l with
  | nil => simp [eraseFirst]
  | cons x xs ih =>
    simp at h
    by_cases h1 : x = a
    · subst h1
      simpa [eraseFirst] using h.1
    · simp [eraseFirst, h1]
      exact ⟨fun he => h1 he.symm, ih h.2⟩

theorem nodup_append_single {β : Type} {l : List β} {a : β}
    (h : l.Nodup) (ha : a ∉ l) : (l ++ [a]).Nodup := by
  simp [List.nodup_append]
  exact ⟨h, fun hm => ha hm⟩

theorem wfx_addDecCore (env : Env) (k : String) (d : Nat) (st : DapiState)
    (hwf : WFx st) (hk : (alookup env.fns k).isSome) :
    WFx (addDecCore env k d st) := by
  obtain ⟨⟨hinv1, hinv2, hinv3⟩, hnd, hnh, hndf⟩ := hwf
  have hfna : ¬ (alookup env.fns k).isNone = true := by
    rcases hfn : alookup env.fns k with _ | c
    · rw [hfn] at hk; simp at hk
    · simp
  by_cases hkD : k ∈ st.decoratedFns
  · have hst : addDecCore env k d st
        = { st with decorators :=
                      aset st.decorators k
                        (((alookup st.decorators k).getD []) ++ [d]) } := by
      unfold addDecCore makeDecorable
      exact if_pos (Or.inl hkD)
    rw [hst]
    refine ⟨⟨?_, ?_, ?_⟩, ?_, hnh, hndf⟩
    · intro k1 hk1
      by_cases he : k1 = k
      · subst he
        exact Or.inl (by rw [alookup_aset_self]; rfl)
      · rw [alookup_aset_ne st.decorators _ (fun hx => he hx.symm)]
        exact hinv1 k1 hk1
    · intro kv hkv
      rcases mem_of_mem_aset hkv with h2 | h2
      · rw [h2]
        exact ⟨hkD, by simp⟩
      · exact hinv2 kv h2
    · exact hinv3
    · exact nodup_akeys_aset hnd _
  · have hst : addDecCore env k d st
        = { st with
            decorators := aset st.decorators k
              (((alookup st.decorators k).getD []) ++ [d]),
            decoratedFns := st.decoratedFns ++ [k] } := by
      unfold addDecCore makeDecorable
      refine if_neg ?_
      intro hc
      rcases hc with h2 | h2
      · exact hkD h2
      · exact hfna h2
    rw [hst]
    refine ⟨⟨?_, ?_, ?_⟩, ?_, hnh, ?_⟩
    · intro k1 hk1
      by_cases he : k1 = k
      · subst he
        exact Or.inl (by rw [alookup_aset_self]; rfl)
      · rw [alookup_aset_ne st.decorators _ (fun hx => he hx.symm)]
        have hk1' : k1 ∈ st.decoratedFns := by
          rcases (by simpa using hk1 : k1 ∈ st.decoratedFns ∨ k1 = k) with h2 | h2
          · exact h2
          · exact absurd h2 he
        exact hinv1 k1 hk1'
    · intro kv hkv
      rcases mem_of_mem_aset hkv with h2 | h2
      · rw [h2]
        exact ⟨by simp, by simp⟩
      · exact ⟨by simp [(hinv2 kv h2).1], (hinv2 kv h2).2⟩
    · intro kr hkr
      exact ⟨by simp [(hinv3 kr hkr).1], (hinv3 kr hkr).2⟩
    · exact nodup_akeys_aset hnd _
    · exact nodup_append_single hndf hkD

theorem wfx_addHookCore (env : Env) (ph : Phase) (k : String) (h : Nat)
    (st : DapiState) (hwf : WFx st) (hk : (alookup env.fns k).isSome) :
    WFx (addHookCore env ph k h st) := by
  obtain ⟨⟨hinv1, hinv2, hinv3⟩, hnd, hnh, hndf⟩ := hwf
  have hfna : ¬ (alookup env.fns k).isNone = true := by
    rcases hfn : alookup env.fns k with _ | c
    · rw [hfn] at hk; simp at hk
    · simp
  have hr' : ∀ r : HookRec,
      (hookPush ph h r).pre ≠ [] ∨ (hookPush ph h r).post ≠ [] := by
    intro r
    cases ph
    · exact Or.inl (by simp [hookPush])
    · exact Or.inr (by simp [hookPush])
  by_cases hkD : k ∈ st.decoratedFns
  · have hst : addHookCore env ph k h st
        = { st with hooks :=
                      aset st.hooks k
                        (hookPush ph h ((alookup st.hooks k).getD ⟨[], []⟩)) } := by
      unfold addHookCore makeDecorable
      exact if_pos (Or.inl hkD)
    rw [hst]
    refine ⟨⟨?_, ?_, ?_⟩, hnd, ?_, hndf⟩
    · intro k1 hk1
      by_cases he : k1 = k
      · subst he
        exact Or.inr (by rw [alookup_aset_self]; rfl)
      · rw [alookup_aset_ne st.hooks _ (fun hx => he hx.symm)]
        exact hinv1 k1 hk1
    · exact hinv2
    · intro kr hkr
      rcases mem_of_mem_aset hkr with h2 | h2
      · rw [h2]
        exact ⟨hkD, hr' _⟩
      · exact hinv3 kr h2
    · exact nodup_akeys_aset hnh _
  · have hst : addHookCore env ph k h st
        = { st with
            hooks :=
              aset st.hooks k
                (hookPush ph h ((alookup st.hooks k).getD ⟨[], []⟩)),
            decoratedFns := st.decoratedFns ++ [k] } := by
      unfold addHookCore makeDecorable
      refine if_neg ?_
      intro hc
      rcases hc with h2 | h2
      · exact hkD h2
      · exact hfna h2
    rw [hst]
    refine ⟨⟨?_, ?_, ?_⟩, hnd, ?_, ?_⟩
    · intro k1 hk1
      by_cases he : k1 = k
      · subst he
        exact Or.inr (by rw [alookup_aset_self]; rfl)
      · rw [alookup_aset_ne st.hooks _ (fun hx => he hx.symm)]
        have hk1' : k1 ∈ st.decoratedFns := by
          rcases (by simpa using hk1 : k1 ∈ st.decoratedFns ∨ k1 = k) with h2 | h2
          · exact h2
          · exact absurd h2 he
        exact hinv1 k1 hk1'
    · intro kv hkv
      exact ⟨by simp [(hinv2 kv hkv).1], (hinv2 kv hkv).2⟩
    · intro kr hkr
      rcases mem_of_mem_aset hkr with h2 | h2
      · rw [h2]
        exact ⟨by simp, hr' _⟩
      · exact ⟨by simp [(hinv3 kr h2).1], (hinv3 kr h2).2⟩
    · exact nodup_akeys_aset hnh _
    · exact nodup_append_single hndf hkD

theorem wfx_removeDecoratorCore (k : String) (d : Nat) (st : DapiState)
    (hwf : WFx st) : WFx (removeDecoratorCore k d st) := by
  obtain ⟨⟨hinv1, hinv2, hinv3⟩, hnd, hnh, hndf⟩ := hwf
  rw [removeDecoratorCore_eq_mapForm]
  have hXne : ∀ k1, k1 ≠ k →
      alookup (decRemMap k d st.decorators) k1 = alookup st.decorators k1 := by
    intro k1 hne1
    unfold decRemMap
    rcases hd : alookup st.decorators k with _ | lk
    · simp only [hd]
    · simp only [hd]
      by_cases he : eraseFirst lk d = []
      · rw [if_pos he]
        exact alookup_adelete_ne st.decorators (fun hx => hne1 hx.symm)
      · rw [if_neg he]
        exact alookup_aset_ne st.decorators _ (fun hx => hne1 hx.symm)
  have hXmem : ∀ kv ∈ decRemMap k d st.decorators,
      kv ∈ st.decorators
        ∨ (kv.1 = k ∧ kv.2 ≠ [] ∧ k ∈ st.decoratedFns) := by
    intro kv hkv
    unfold decRemMap at hkv
    rcases hd : alookup st.decorators k with _ | lk
    · simp only [hd] at hkv
      exact Or.inl hkv
    · simp only [hd] at hkv
      by_cases he : eraseFirst lk d = []
      · rw [if_pos he] at hkv
        exact Or.inl (mem_of_mem_adelete hkv)
      · rw [if_neg he] at hkv
        rcases mem_of_mem_aset hkv with h2 | h2
        · refine Or.inr ⟨by rw [h2], by rw [h2]; exact he, ?_⟩
          exact (hinv2 _ (mem_of_alookup_eq_some hd)).1
        · exact Or.inl h2
  have hXnodup : (akeys (decRemMap k d st.decorators)).Nodup := by
    unfold decRemMap
    rcases hd : alookup st.decorators k with _ | lk
    · simp only [hd]; exact hnd
    · simp only [hd]
      by_cases he : eraseFirst lk d = []
      · rw [if_pos he]; exact nodup_akeys_adelete hnd
      · rw [if_neg he]; exact nodup_akeys_aset hnd _
  by_cases cu : k ∉ st.decoratedFns
      ∨ (alookup (decRemMap k d st.decorators) k).isSome = true
      ∨ (alookup st.hooks k).isSome = true
  · have hst : unmakeDecorable k
        { st with decorators := decRemMap k d st.decorators }
        = { st with decorators := decRemMap k d st.decorators } := by
      unfold unmakeDecorable
      exact if_pos cu
    rw [hst]
    refine ⟨⟨?_, ?_, ?_⟩, hXnodup, hnh, hndf⟩
    · intro k1 hk1
      by_cases he1 : k1 = k
      · subst he1
        rcases cu with h2 | h2 | h2
        · exact absurd hk1 h2
        · exact Or.inl h2
        · exact Or.inr h2
      · rw [hXne k1 he1]
        exact hinv1 k1 hk1
    · intro kv hkv
      rcases hXmem kv hkv with h2 | h2
      · exact hinv2 kv h2
      · exact ⟨by rw [h2.1]; exact h2.2.2, h2.2.1⟩
    · exact hinv3
  · have hkD : k ∈ st.decoratedFns := by
      by_contra hc
      exact cu (Or.inl hc)
    have hXkNone : alookup (decRemMap k d st.decorators) k = none := by
      rcases hxk : alookup (decRemMap k d st.decorators) k with _ | v
      · rfl
      · exact absurd (Or.inr (Or.inl (by rw [hxk]; rfl))) cu
    have hhkNone : alookup st.hooks k = none := by
      rcases hxk : alookup st.hooks k with _ | v
      · rfl
      · exact absurd (Or.inr (Or.inr (by rw [hxk]; rfl))) cu
    have hst : unmakeDecorable k
        { st with decorators := decRemMap k d st.decorators }
        = { st with decorators := decRemMap k d st.decorators,
                    decoratedFns := eraseFirst st.decoratedFns k } := by
      unfold unmakeDecorable
      exact if_neg cu
    rw [hst]
    refine ⟨⟨?_, ?_, ?_⟩, hXnodup, hnh, nodup_eraseFirst hndf _⟩
    · intro k1 hk1
      have hk1D : k1 ∈ st.decoratedFns := mem_of_mem_eraseFirst hk1
      have hne1 : k1 ≠ k := by
        rintro rfl
        exact not_mem_eraseFirst_self hndf k1 hk1
      rw [hXne k1 hne1]
      exact hinv1 k1 hk1D
    · intro kv hkv
      have hne1 : kv.1 ≠ k := by
        intro he
        have h3 := alookup_isSome_of_mem
          (show (kv.1, kv.2) ∈ decRemMap k d st.decorators from hkv)
        rw [he, hXkNone] at h3
        simp at h3
      rcases hXmem kv hkv with h2 | h2
      · exact ⟨(mem_eraseFirst_ne hne1).mpr (hinv2 kv h2).1, (hinv2 kv h2).2⟩
      · exact absurd h2.1 hne1
    · intro kr hkr
      have hne1 : kr.1 ≠ k := by
        intro he
        have h3 := alookup_isSome_of_mem
          (show (kr.1, kr.2) ∈ st.hooks from hkr)
        rw [he, hhkNone] at h3
        simp at h3
      exact ⟨(mem_eraseFirst_ne hne1).mpr (hinv3 kr hkr).1, (hinv3 kr hkr).2⟩

theorem wfx_unmake_hooks_update (k : String) (st : DapiState)
    (Y : List (String × HookRec)) (hwf : WFx st)
    (hYne : ∀ k1, k1 ≠ k → alookup Y k1 = alookup st.hooks k1)
    (hYmem : ∀ kr ∈ Y, kr ∈ st.hooks
        ∨ (kr.1 = k ∧ (kr.2.pre ≠ [] ∨ kr.2.post ≠ [])
            ∧ k ∈ st.decoratedFns))
    (hYnodup : (akeys Y).Nodup) :
    WFx (unmakeDecorable k { st with hooks := Y }) := by
  obtain ⟨⟨hinv1, hinv2, hinv3⟩, hnd, hnh, hndf⟩ := hwf
  by_cases cu : k ∉ st.decoratedFns
      ∨ (alookup st.decorators k).isSome = true
      ∨ (alookup Y k).isSome = true
  · have hst : unmakeDecorable k { st with hooks := Y }
        = { st with hooks := Y } := by
      unfold unmakeDecorable
      exact if_pos cu
    rw [hst]
    refine ⟨⟨?_, ?_, ?_⟩, hnd, hYnodup, hndf⟩
    · intro k1 hk1
      by_cases he1 : k1 = k
      · subst he1
        rcases cu with h2 | h2 | h2
        · exact absurd hk1 h2
        · exact Or.inl h2
        · exact Or.inr h2
      · rw [hYne k1 he1]
        exact hinv1 k1 hk1
    · exact hinv2
    · intro kr hkr
      rcases hYmem kr hkr with h2 | h2
      · exact hinv3 kr h2
      · exact ⟨by rw [h2.1]; exact h2.2.2, h2.2.1⟩
  · have hkD : k ∈ st.decoratedFns := by
      by_contra hc
      exact cu (Or.inl hc)
    have hdkNone : alookup st.decorators k = none := by
      rcases hxk : alookup st.decorators k with _ | v
      · rfl
      · exact absurd (Or.inr (Or.inl (by rw [hxk]; rfl))) cu
    have hYkNone : alookup Y k = none := by
      rcases hxk : alookup Y k with _ | v
      · rfl
      · exact absurd (Or.inr (Or.inr (by rw [hxk]; rfl))) cu
    have hst : unmakeDecorable k { st with hooks := Y }
        = { st with hooks := Y,
                    decoratedFns := eraseFirst st.decoratedFns k } := by
      unfold unmakeDecorable
      exact if_neg cu
    rw [hst]
    refine ⟨⟨?_, ?_, ?_⟩, hnd, hYnodup, nodup_eraseFirst hndf _⟩
    · intro k1 hk1
      have hk1D := mem_of_mem_eraseFirst hk1
      have hne1 : k1 ≠ k := by
        rintro rfl
        exact not_mem_eraseFirst_self hndf k1 hk1
      rw [hYne k1 hne1]
      exact hinv1 k1 hk1D
    · intro kv hkv
      have hne1 : kv.1 ≠ k := by
        intro he
        have h3 := alookup_isSome_of_mem
          (show (kv.1, kv.2) ∈ st.decorators from hkv)
        rw [he, hdkNone] at h3
        simp at h3
      exact ⟨(mem_eraseFirst_ne hne1).mpr (hinv2 kv hkv).1, (hinv2 kv hkv).2⟩
    · intro kr hkr
      have hne1 : kr.1 ≠ k := by
        intro he
        have h3 := alookup_isSome_of_mem (show (kr.1, kr.2) ∈ Y from hkr)
        rw [he, hYkNone] at h3
        simp at h3
      rcases hYmem kr hkr with h2 | h2
      · exact ⟨(mem_eraseFirst_ne hne1).mpr (hinv3 kr h2).1, (hinv3 kr h2).2⟩
      · exact absurd h2.1 hne1

theorem wfx_removeHook_snd (ph : Phase) (k : String) (h : Nat)
    (st : DapiState) (hwf : WFx st) : WFx (removeHook ph k h st).2 := by
  rcases hr : alookup st.hooks k with _ | r
  · have hst : (removeHook ph k h st).2 = st := by
      unfold removeHook
      simp only [hr]
    rw [hst]
    exact hwf
  · obtain ⟨⟨hinv1, hinv2, hinv3⟩, hnd, hnh, hndf⟩ := hwf
    have hkD : k ∈ st.decoratedFns :=
      (hinv3 _ (mem_of_alookup_eq_some hr)).1
    have hform : (removeHook ph k h st).2 = unmakeDecorable k
        (if (hookErase ph h r).pre = [] ∧ (hookErase ph h r).post = [] then
          { st with hooks := adelete st.hooks k }
        else { st with hooks := aset st.hooks k (hookErase ph h r) }) := by
      unfold removeHook
      simp only [hr]
    rw [hform]
    by_cases hemp : (hookErase ph h r).pre = [] ∧ (hookErase ph h r).post = []
    · rw [if_pos hemp]
      refine wfx_unmake_hooks_update k st _
        ⟨⟨hinv1, hinv2, hinv3⟩, hnd, hnh, hndf⟩ ?_ ?_ ?_
      · intro k1 hne1
        exact alookup_adelete_ne st.hooks (fun hx => hne1 hx.symm)
      · intro kr hkr
        exact Or.inl (mem_of_mem_adelete hkr)
      · exact nodup_akeys_adelete hnh
    · rw [if_neg hemp]
      refine wfx_unmake_hooks_update k st _
        ⟨⟨hinv1, hinv2, hinv3⟩, hnd, hnh, hndf⟩ ?_ ?_ ?_
      · intro k1 hne1
        exact alookup_aset_ne st.hooks _ (fun hx => hne1 hx.symm)
      · intro kr hkr
        rcases mem_of_mem_aset hkr with h2 | h2
        · refine Or.inr ⟨by rw [h2], ?_, hkD⟩
          rw [h2]
          by_cases hp : (hookErase ph h r).pre = []
          · refine Or.inr (fun hq => hemp ⟨hp, hq⟩)
          · exact Or.inl hp
        · exact Or.inl h2
      · exact nodup_akeys_aset hnh _

theorem wfx_addDecorator_snd (env : Env) (k : String) (d : Nat)
    (st : DapiState) (hwf : WFx st) : WFx (addDecorator env k d st).2 := by
  unfold addDecorator
  by_cases h1 : ¬ isFunctionProp env k = true
  · rw [if_pos h1]
    exact hwf
  · rw [if_neg h1]
    by_cases h2 : (alookup env.fns k).isNone = true
    · rw [if_pos h2]
      exact hwf
    · rw [if_neg h2]
      refine wfx_addDecCore env k d st hwf ?_
      rcases hfn : alookup env.fns k with _ | c
      · rw [hfn] at h2
        simp at h2
      · simp

theorem wfx_addHook_snd (env : Env) (ph : Phase) (k : String) (h : Nat)
    (st : DapiState) (hwf : WFx st) : WFx (addHook env ph k h st).2 := by
  unfold addHook
  by_cases h2 : (alookup env.fns k).isSome = true
  · rw [if_neg (fun hc => hc h2)]
    exact wfx_addHookCore env ph k h st hwf h2
  · rw [if_pos h2]
    exact hwf

theorem wfx_decorateAllGo_snd (env : Env) (d : Nat) (ks : List String) :
    ∀ (st : DapiState) (acc : List (String × Nat)), WFx st →
      WFx (decorateAllGo env d ks st acc).2.1 := by
  induction ks with
  | nil =>
    intro st acc hwf
    exact hwf
  | cons k ks1 ih =>
    intro st acc hwf
    have hwf1 : WFx (addDecorator env k d st).2 :=
      wfx_addDecorator_snd env k d st hwf
    unfold decorateAllGo
    rcases ha : addDecorator env k d st with ⟨oe, st1⟩
    rw [ha] at hwf1
    rcases oe with _ | e
    · simp only []
      exact ih st1 (acc ++ [(k, d)]) hwf1
    · simp only []
      exact hwf1

theorem wfx_runRemovers (rs : List (String × Nat)) :
    ∀ (st : DapiState), WFx st → WFx (runRemovers rs st) := by
  induction rs with
  | nil =>
    intro st hwf
    exact hwf
  | cons kd rs1 ih =>
    intro st hwf
    unfold runRemovers
    rw [List.foldl_cons]
    exact ih _ (wfx_removeDecoratorCore kd.1 kd.2 st hwf)

theorem wfx_applyOp_snd (env : Env) (o : Op) (st : DapiState)
    (hwf : WFx st) : WFx (applyOp env o st).2 := by
  cases o with
  | addDec k d => exact wfx_addDecorator_snd env k d st hwf
  | remDec k d => exact wfx_removeDecoratorCore k d st hwf
  | addHk ph k h => exact wfx_addHook_snd env ph k h st hwf
  | remHk ph k h => exact wfx_removeHook_snd ph k h st hwf
  | decAll d => exact wfx_decorateAllGo_snd env d (akeys env.fns) st [] hwf
  | remAll d => exact wfx_runRemovers _ st hwf

theorem wfx_runOps (env : Env) (ops : List Op) :
    ∀ (st st' : DapiState), WFx st → runOps env ops st = some st' →
      WFx st' := by
  induction ops with
  | nil =>
    intro st st' hwf h
    cases h
    exact hwf
  | cons o os ih =>
    intro st st' hwf h
    have hwf1 : WFx (applyOp env o st).2 := wfx_applyOp_snd env o st hwf
    unfold runOps at h
    rcases ha : applyOp env o st with ⟨oe, st1⟩
    rw [ha] at h hwf1
    rcases oe with _ | e
    · exact ih st1 st' hwf1 h
    · simp at h

theorem wfx_initState (dep0 : List (String × Val)) : WFx (initState dep0) := by
  refine ⟨⟨?_, ?_, ?_⟩, ?_, ?_, ?_⟩ <;> simp [initState, akeys]

end InvLemmas

/-- C1 (counterexample): the claim that the first-registered user decorator
is the outermost wrapper fails on the code.  In state stA decorator 1 was
registered before decorator 2, yet the first decorator event of the call is
decorator 2 and the result is 2 * (5 + 1) = 12 - the composition the claim
predicts (first-registered outermost) would run decorator 1 first and
produce 2 * 5 + 1 = 11. -/
theorem C1_counterexample :
    firstDecorId (callFacade envA stA "k" []).sync = some 2
    ∧ firstDecorId (callFacade envA stA "k" []).sync ≠ some 1
    ∧ resInt (callFacade envA stA "k" []) = some 12
    ∧ resInt (callFacade envA stA "k" []) ≠ some 11 := by
  decide

/-- C1 (amended): for a key with registered decorators ds ++ [d], the facade
call applies the LAST-registered decorator d outermost; its next argument
is the composition of the earlier decorators over the synthesized hook
decorator (present exactly when the key has hooks), which sits innermost,
wrapping the raw command directly; the chain is invoked with the current
dependencies prepended to the call arguments. -/
theorem C1_last_registered_outermost (env : Env) (st : DapiState)
    (k : String) (cmd : Recv → List Val → CmdRes) (ds : List Nat) (d : Nat)
    (params : List Val) (hk : k ∈ st.decoratedFns)
    (hc : alookup env.fns k = some cmd)
    (hd : alookup st.decorators k = some (ds ++ [d])) :
    callFacade env st k params
      = env.decSem d
          (composeChain env st k
            ((if (alookup st.hooks k).isSome then [ChainElem.hook] else [])
              ++ ds.map ChainElem.decor) (baseSem cmd))
          (Val.obj st.deps :: params)
    ∧ composeChain env st k
          ((if (alookup st.hooks k).isSome then [ChainElem.hook] else [])
            ++ ds.map ChainElem.decor) (baseSem cmd)
      = composeChain env st k (ds.map ChainElem.decor)
          (if (alookup st.hooks k).isSome then hookDecSem env st k (baseSem cmd)
            else baseSem cmd) := by
  constructor
  · rw [callFacade_decorated env st k cmd params hc hk, hd]
    simp only [Option.getD_some, List.map_append, List.map_cons, List.map_nil]
    rw [← List.append_assoc, composeChain_append_single]
    rfl
  · by_cases hh : (alookup st.hooks k).isSome
    · rw [if_pos hh, if_pos hh]
      rfl
    · rw [if_neg hh, if_neg hh]
      rfl

/-- C1 (witness): the amended chain theorem instantiated on stA, where
decorator 1 was registered before decorator 2 on key k. -/
theorem C1_witness :
    ("k" ∈ stA.decoratedFns
      ∧ alookup envA.fns "k" = some cmd5
      ∧ alookup stA.decorators "k" = some ([1] ++ [2]))
    ∧ (callFacade envA stA "k" []
        = envA.decSem 2
            (composeChain envA stA "k"
              ((if (alookup stA.hooks "k").isSome then [ChainElem.hook] else [])
                ++ [1].map ChainElem.decor) (baseSem cmd5))
            (Val.obj stA.deps :: [])
      ∧ composeChain envA stA "k"
            ((if (alookup stA.hooks "k").isSome then [ChainElem.hook] else [])
              ++ [1].map ChainElem.decor) (baseSem cmd5)
        = composeChain envA stA "k" ([1].map ChainElem.decor)
            (if (alookup stA.hooks "k").isSome
              then hookDecSem envA stA "k" (baseSem cmd5)
              else baseSem cmd5)) :=
  ⟨⟨by decide, rfl, by decide⟩,
    C1_last_registered_outermost envA stA "k" cmd5 [1] 2 [] (by decide) rfl
      (by decide)⟩

/-- C2: for every key of the function map of a wrapper on which the key is
undecorated, the facade call invokes exactly the original function, with
the current dependencies prepended to the call-site arguments and the
wrapper as receiver, and returns its outcome unchanged. -/
theorem C2_facade_direct_call (env : Env) (st : DapiState) (k : String)
    (cmd : Recv → List Val → CmdRes) (params : List Val)
    (hc : alookup env.fns k = some cmd) (hu : k ∉ st.decoratedFns) :
    callFacade env st k params
      = { sync := [Event.cmdCall Recv.wrapper (Val.obj st.deps :: params)],
          result := liftCmdRes (cmd Recv.wrapper (Val.obj st.deps :: params)),
          deferred := [], swallowed := [] } :=
  callFacade_undecorated env st k cmd params hc hu

/-- C2 (witness): the facade equation instantiated on a fresh wrapper of
envA at key k with one call-site argument. -/
theorem C2_witness :
    (alookup envA.fns "k" = some cmd5 ∧ "k" ∉ (initState d0).decoratedFns)
    ∧ callFacade envA (initState d0) "k" [Val.int 7]
      = { sync := [Event.cmdCall Recv.wrapper
            (Val.obj (initState d0).deps :: [Val.int 7])],
          result := liftCmdRes (cmd5 Recv.wrapper
            (Val.obj (initState d0).deps :: [Val.int 7])),
          deferred := [], swallowed := [] } :=
  ⟨⟨rfl, by decide⟩,
    C2_facade_direct_call envA (initState d0) "k" cmd5 [Val.int 7] rfl
      (by decide)⟩

/-- C3 (counterexample): the claim that hooks receive only the user-facing
call arguments, excluding the dependency bundle, fails on the code.  With
one pre-hook on key k of stH, calling the facade with the single argument
9 invokes the hook with the two-element argument list whose head is the
dependency object - the hook argument list contains the injected
dependencies. -/
theorem C3_counterexample :
    preHookArgs (callFacade envH stH "k" [Val.int 9]).sync
      = [[Val.obj d0, Val.int 9]]
    ∧ (preHookArgs (callFacade envH stH "k" [Val.int 9]).sync).map List.length
      = [2]
    ∧ ([Val.int 9] : List Val).length = 1
    ∧ (2 : Nat) ≠ 1 :=
  ⟨rfl, by decide, by decide, by decide⟩

/-- C3 (amended): for a key with hooks and no user decorators, every pre or
post hook invoked during a facade call receives the full argument list of
the underlying call, that is the current dependency bundle followed by the
user call-site arguments (matching the hooked function's own parameters),
not the user arguments alone. -/
theorem C3_hook_args_include_deps (env : Env) (st : DapiState) (k : String)
    (cmd : Recv → List Val → CmdRes) (r : HookRec) (params : List Val)
    (hc : alookup env.fns k = some cmd) (hk : k ∈ st.decoratedFns)
    (hd : alookup st.decorators k = none)
    (hh : alookup st.hooks k = some r) :
    ∀ e ∈ (callFacade env st k params).sync
        ++ (callFacade env st k params).deferred,
      (∀ i a, e = Event.preHook i a → a = Val.obj st.deps :: params)
      ∧ (∀ i a, e = Event.postHook i a → a = Val.obj st.deps :: params) := by
  intro e he
  rw [callFacade_hooks_only env st k cmd params hc hk hd (by simp [hh])] at he
  have h3 := hookDec_base_events env st k r cmd (Val.obj st.deps :: params) hh
    e (by simpa using he)
  rcases h3 with h3 | ⟨i0, hi0⟩ | ⟨i0, hi0⟩
  · subst h3
    exact ⟨fun i a hia => absurd hia (by simp),
      fun i a hia => absurd hia (by simp)⟩
  · subst hi0
    refine ⟨fun i a hia => ?_, fun i a hia => absurd hia (by simp)⟩
    injection hia with h1 h2
    exact h2.symm
  · subst hi0
    refine ⟨fun i a hia => absurd hia (by simp), fun i a hia => ?_⟩
    injection hia with h1 h2
    exact h2.symm

/-- C3 (witness): instantiating the amended theorem on stH and extracting,
for the recorded pre-hook invocation event, the fact that its argument list
is the dependency bundle followed by the user argument. -/
theorem C3_witness :
    (alookup stH.decorators "k" = none
      ∧ alookup stH.hooks "k" = some ⟨[7], [5]⟩)
    ∧ [Val.obj d0, Val.int 9] = Val.obj stH.deps :: [Val.int 9] :=
  ⟨⟨by decide, by decide⟩,
    (C3_hook_args_include_deps envH stH "k"
        (fun _ _ => CmdRes.promiseRes (Val.int 1)) ⟨[7], [5]⟩ [Val.int 9] rfl
        (by decide) (by decide) (by decide)
        (Event.preHook 7 [Val.obj d0, Val.int 9]) (List.Mem.head _)).1
      7 [Val.obj d0, Val.int 9] rfl⟩

/-- C4: for a key with hooks and no user decorators whose pre-hooks do not
throw: when the underlying call returns a promise that resolves to v, the
result returned to the caller is that promise unchanged, the synchronous
phase contains only the pre-hook invocations and the command call (no
post-hook runs synchronously), and the post-hooks run in the deferred
phase after the promise resolves; when the promise rejects, the rejection
is returned unchanged to the caller and the number of post-hook
invocations anywhere in the call is zero; when the call returns a plain
value, the post-hooks run synchronously immediately after the command
event and the value is returned unchanged. -/
theorem C4_async_post_hooks (env : Env) (st : DapiState) (k : String)
    (cmd : Recv → List Val → CmdRes) (r : HookRec) (params : List Val)
    (hc : alookup env.fns k = some cmd) (hk : k ∈ st.decoratedFns)
    (hd : alookup st.decorators k = none)
    (hh : alookup st.hooks k = some r)
    (hpre : (runHooks env Event.preHook r.pre
      (Val.obj st.deps :: params)).2 = none) :
    (∀ v, cmd Recv.wrapper (Val.obj st.deps :: params) = CmdRes.promiseRes v →
      (callFacade env st k params).result
          = Except.ok (CallRes.promise (Except.ok v))
        ∧ (callFacade env st k params).sync
          = (runHooks env Event.preHook r.pre (Val.obj st.deps :: params)).1
            ++ [Event.cmdCall Recv.wrapper (Val.obj st.deps :: params)]
        ∧ (callFacade env st k params).deferred
          = (runHooks env Event.postHook r.post (Val.obj st.deps :: params)).1
        ∧ (∀ e ∈ (callFacade env st k params).sync, isPostEv e = false))
    ∧ (∀ e2, cmd Recv.wrapper (Val.obj st.deps :: params) = CmdRes.promiseRej e2 →
      (callFacade env st k params).result
          = Except.ok (CallRes.promise (Except.error e2))
        ∧ postCount (callFacade env st k params) = 0)
    ∧ (∀ v, cmd Recv.wrapper (Val.obj st.deps :: params) = CmdRes.ret v →
        (runHooks env Event.postHook r.post (Val.obj st.deps :: params)).2
          = none →
      (callFacade env st k params).result = Except.ok (CallRes.v v)
        ∧ (callFacade env st k params).sync
          = (runHooks env Event.preHook r.pre (Val.obj st.deps :: params)).1
            ++ [Event.cmdCall Recv.wrapper (Val.obj st.deps :: params)]
            ++ (runHooks env Event.postHook r.post (Val.obj st.deps :: params)).1
        ∧ (callFacade env st k params).deferred = []) := by
  have hcall := callFacade_hooks_only env st k cmd params hc hk hd (by simp [hh])
  refine ⟨fun v hv => ?_, fun e2 hv => ?_, fun v hv hpost => ?_⟩
  · rw [hcall, hookDecSem_promise_ok env st k r (baseSem cmd)
      (Val.obj st.deps :: params) v hh hpre
      (by rw [baseSem_eval, hv]; rfl)]
    refine ⟨rfl, rfl, rfl, ?_⟩
    intro e he
    rcases (by simpa [baseSem_eval] using he :
        e ∈ (runHooks env Event.preHook r.pre (Val.obj st.deps :: params)).1
          ∨ e = Event.cmdCall Recv.wrapper (Val.obj st.deps :: params))
        with h2 | h2
    · obtain ⟨i, hi⟩ := runHooks_events env Event.preHook r.pre _ e h2
      rw [hi]; rfl
    · rw [h2]; rfl
  · rw [hcall, hookDecSem_promise_rej env st k r (baseSem cmd)
      (Val.obj st.deps :: params) e2 hh hpre
      (by rw [baseSem_eval, hv]; rfl)]
    refine ⟨rfl, ?_⟩
    unfold postCount
    rw [List.length_eq_zero]
    rw [List.filter_eq_nil]
    intro e he
    rcases (by simpa [baseSem_eval] using he :
        e ∈ (runHooks env Event.preHook r.pre (Val.obj st.deps :: params)).1
          ∨ e = Event.cmdCall Recv.wrapper (Val.obj st.deps :: params))
        with h2 | h2
    · obtain ⟨i, hi⟩ := runHooks_events env Event.preHook r.pre _ e h2
      rw [hi]; simp [isPostEv]
    · rw [h2]; simp [isPostEv]
  · rw [hcall, hookDecSem_ret_ok env st k r (baseSem cmd)
      (Val.obj st.deps :: params) v hh hpre
      (by rw [baseSem_eval, hv]; rfl) hpost]
    exact ⟨rfl, rfl, rfl⟩

/-- C4 (witness): on stH the asynchronous key resolves to 1; the resolved
promise is returned unchanged to the caller. -/
theorem C4_witness :
    (runHooks envH Event.preHook ([7] : List Nat)
        (Val.obj d0 :: [Val.int 9])).2 = none
    ∧ (callFacade envH stH "k" [Val.int 9]).result
        = Except.ok (CallRes.promise (Except.ok (Val.int 1))) :=
  ⟨by decide,
    ((C4_async_post_hooks envH stH "k"
        (fun _ _ => CmdRes.promiseRes (Val.int 1)) ⟨[7], [5]⟩ [Val.int 9] rfl
        (by decide) (by decide) (by decide) (by decide)).1
      (Val.int 1) rfl).1⟩

/-- C5 (counterexample): the claim that an error thrown by a post-hook of a
call whose result was a resolved asynchronous value propagates to the
caller fails on the code.  On stH the post-hook throws error 42 after the
promise resolves, yet the caller receives the resolved promise with value
1: no synchronous throw, no rejection - the error is swallowed (it only
rejects the derived then-promise, recorded here in the swallowed list). -/
theorem C5_counterexample :
    resPromiseInt (callFacade envH stH "k" [Val.int 9]) = some 1
    ∧ (callFacade envH stH "k" [Val.int 9]).swallowed = [42]
    ∧ resErr (callFacade envH stH "k" [Val.int 9]) = none
    ∧ resRejection (callFacade envH stH "k" [Val.int 9]) = none := by
  decide

/-- C5 (amended): the engine adds no wrapping, retry or suppression to
errors, with one exception.  On a decorated key the facade returns the
composed decorator chain's outcome verbatim, so an error surfacing from
any registered decorator reaches the caller unmodified.  On a key with
hooks and no user decorators, errors propagate unmodified from a throwing
pre-hook (the wrapped call then never runs), from the underlying function
throwing synchronously, and from a post-hook throwing after a synchronous
result, and a rejected promise is returned to the caller unchanged.  On an
undecorated key a synchronous throw and a rejection of the underlying
function reach the caller unmodified.  The exception: an error thrown by a
post-hook running after an asynchronous result resolved does not reach the
caller - the resolved promise is returned unchanged and the error is
swallowed. -/
theorem C5_error_passthrough (env : Env) (st : DapiState) (k : String)
    (cmd : Recv → List Val → CmdRes) (r : HookRec) (params : List Val)
    (hc : alookup env.fns k = some cmd) :
    (k ∈ st.decoratedFns →
      ∀ l, alookup st.decorators k = some l →
      ∀ e1, (composeChain env st k
          ((if (alookup st.hooks k).isSome then [ChainElem.hook] else [])
            ++ l.map ChainElem.decor) (baseSem cmd)
          (Val.obj st.deps :: params)).result = Except.error e1 →
      (callFacade env st k params).result = Except.error e1)
    ∧ (k ∈ st.decoratedFns → alookup st.decorators k = none →
        alookup st.hooks k = some r →
      (∀ e1, (runHooks env Event.preHook r.pre (Val.obj st.deps :: params)).2
          = some e1 →
        (callFacade env st k params).result = Except.error e1)
      ∧ ((runHooks env Event.preHook r.pre (Val.obj st.deps :: params)).2
          = none →
        (∀ e1, cmd Recv.wrapper (Val.obj st.deps :: params) = CmdRes.throw e1 →
          (callFacade env st k params).result = Except.error e1)
        ∧ (∀ v e1, cmd Recv.wrapper (Val.obj st.deps :: params) = CmdRes.ret v →
            (runHooks env Event.postHook r.post (Val.obj st.deps :: params)).2
              = some e1 →
          (callFacade env st k params).result = Except.error e1)
        ∧ (∀ e1, cmd Recv.wrapper (Val.obj st.deps :: params)
              = CmdRes.promiseRej e1 →
          (callFacade env st k params).result
            = Except.ok (CallRes.promise (Except.error e1)))
        ∧ (∀ v e1, cmd Recv.wrapper (Val.obj st.deps :: params)
              = CmdRes.promiseRes v →
            (runHooks env Event.postHook r.post (Val.obj st.deps :: params)).2
              = some e1 →
          (callFacade env st k params).result
              = Except.ok (CallRes.promise (Except.ok v))
            ∧ (callFacade env st k params).swallowed = [e1])))
    ∧ (k ∉ st.decoratedFns →
      (∀ e1, cmd Recv.wrapper (Val.obj st.deps :: params) = CmdRes.throw e1 →
        (callFacade env st k params).result = Except.error e1)
      ∧ (∀ e1, cmd Recv.wrapper (Val.obj st.deps :: params)
            = CmdRes.promiseRej e1 →
        (callFacade env st k params).result
          = Except.ok (CallRes.promise (Except.error e1)))) := by
  refine ⟨?_, ?_, ?_⟩
  · intro hk l hl e1 hres
    rw [callFacade_decorated env st k cmd params hc hk, hl]
    simpa using hres
  · intro hk hd hh
    have hcall := callFacade_hooks_only env st k cmd params hc hk hd
      (by simp [hh])
    constructor
    · intro e1 hpre
      rw [hcall, hookDecSem_pre_throw env st k r (baseSem cmd)
        (Val.obj st.deps :: params) e1 hh hpre]
    · intro hpre
      refine ⟨fun e1 hv => ?_, fun v e1 hv hpost => ?_, fun e1 hv => ?_,
        fun v e1 hv hpost => ?_⟩
      · rw [hcall, hookDecSem_inner_throw env st k r (baseSem cmd)
          (Val.obj st.deps :: params) e1 hh hpre (by rw [baseSem_eval, hv]; rfl)]
      · rw [hcall, hookDecSem_ret_post_throw env st k r (baseSem cmd)
          (Val.obj st.deps :: params) v e1 hh hpre
          (by rw [baseSem_eval, hv]; rfl) hpost]
      · rw [hcall, hookDecSem_promise_rej env st k r (baseSem cmd)
          (Val.obj st.deps :: params) e1 hh hpre (by rw [baseSem_eval, hv]; rfl)]
      · rw [hcall, hookDecSem_promise_ok env st k r (baseSem cmd)
          (Val.obj st.deps :: params) v hh hpre (by rw [baseSem_eval, hv]; rfl)]
        exact ⟨rfl, by rw [baseSem_eval, hpost]; rfl⟩
  · intro hu
    constructor
    · intro e1 hv
      rw [callFacade_undecorated env st k cmd params hc hu]
      show liftCmdRes (cmd Recv.wrapper (Val.obj st.deps :: params))
        = Except.error e1
      rw [hv]
      rfl
    · intro e1 hv
      rw [callFacade_undecorated env st k cmd params hc hu]
      show liftCmdRes (cmd Recv.wrapper (Val.obj st.deps :: params))
        = Except.ok (CallRes.promise (Except.error e1))
      rw [hv]
      rfl

/-- C5 (witness): on stT the registered decorator throws error 77 and the
caller receives exactly that error; on stH the resolved value 1 reaches
the caller unchanged while the post-hook error 42 is swallowed. -/
theorem C5_witness :
    (alookup envT.fns "k" = some cmd5
      ∧ alookup stT.decorators "k" = some [9]
      ∧ alookup stH.hooks "k" = some ⟨[7], [5]⟩)
    ∧ (callFacade envT stT "k" []).result = Except.error 77
    ∧ (callFacade envH stH "k" [Val.int 9]).result
        = Except.ok (CallRes.promise (Except.ok (Val.int 1)))
    ∧ (callFacade envH stH "k" [Val.int 9]).swallowed = [42] := by
  refine ⟨⟨rfl, by decide, by decide⟩, ?_, ?_⟩
  · exact (C5_error_passthrough envT stT "k" cmd5 ⟨[], []⟩ [] rfl).1
      (by decide) [9] (by decide) 77 rfl
  · exact ((C5_error_passthrough envH stH "k"
      (fun _ _ => CmdRes.promiseRes (Val.int 1)) ⟨[7], [5]⟩ [Val.int 9]
      rfl).2.1 (by decide) (by decide) (by decide)).2 (by decide)
      |>.2.2.2 (Val.int 1) 42 rfl (by decide)

/-- C6: for every key that is not an entry of the definition's function
map, addDecorator and addHook (either phase) throw a TypeError and leave
the whole wrapper state - decorators map, hooks map, decorated-keys list
and hence the facade behaviour - unchanged. -/
theorem C6_invalid_target (env : Env) (ph : Phase) (k : String) (d h : Nat)
    (st : DapiState) (hk : alookup env.fns k = none) :
    (isTypeErrOpt (addDecorator env k d st).1 = true
      ∧ (addDecorator env k d st).2 = st)
    ∧ (isTypeErrOpt (addHook env ph k h st).1 = true
      ∧ (addHook env ph k h st).2 = st) := by
  constructor
  · unfold addDecorator
    by_cases hf : isFunctionProp env k = true
    · rw [if_neg (by simp [hf]), if_pos (by rw [hk]; rfl)]
      exact ⟨rfl, rfl⟩
    · rw [if_pos (by simpa using hf)]
      exact ⟨rfl, rfl⟩
  · unfold addHook
    rw [if_pos (by rw [hk]; simp)]
    exact ⟨rfl, rfl⟩

/-- C6 (witness): registering on the key nope, absent from envA's function
map, throws and leaves a fresh wrapper state untouched. -/
theorem C6_witness :
    alookup envA.fns "nope" = none
    ∧ ((isTypeErrOpt (addDecorator envA "nope" 1 (initState d0)).1 = true
        ∧ (addDecorator envA "nope" 1 (initState d0)).2 = initState d0)
      ∧ (isTypeErrOpt (addHook envA Phase.pre "nope" 1 (initState d0)).1 = true
        ∧ (addHook envA Phase.pre "nope" 1 (initState d0)).2 = initState d0)) :=
  ⟨rfl, C6_invalid_target envA Phase.pre "nope" 1 1 (initState d0) rfl⟩

/-- C7 (code bug): removing a hook by identity is claimed to be a harmless
no-op when absent, even after the per-key hook record was deleted because
both phase lists became empty.  The code instead reads
this.hooks[key][hookType] without a guard: after addPreHook(k, hook) the
remover works once (the record is deleted since both lists are empty), but
invoking it a second time - or any removeHook on a key without a hook
record - raises a runtime TypeError reading a property of undefined, before
any mutation.  The dead guards at the splice and delete steps of the same
method show the no-op behaviour was the intent. -/
theorem C7_remover_crash :
    (addHook envH Phase.pre "k" 3 (initState d0)).1 = none
    ∧ (addHook envH Phase.pre "k" 3 (initState d0)).2.hooks
        = [("k", ⟨[3], []⟩)]
    ∧ (removeHook Phase.pre "k" 3
        (addHook envH Phase.pre "k" 3 (initState d0)).2).1 = none
    ∧ (removeHook Phase.pre "k" 3
        (addHook envH Phase.pre "k" 3 (initState d0)).2).2.hooks = []
    ∧ (removeHook Phase.pre "k" 3
        (removeHook Phase.pre "k" 3
          (addHook envH Phase.pre "k" 3 (initState d0)).2).2).1
      = some (JsErr.undefinedAccess "Cannot read properties of undefined") := by
  decide

/-- C8: setDependencies with a falsy argument throws a TypeError leaving
the state unchanged, and otherwise replaces both the internal dependency
reference and the stored definition's dependencies field;
updateDependencies behaves the same on falsy input and otherwise
shallow-merges into the current dependencies; after an update, a facade
call on an undecorated key passes the new dependencies to the underlying
function. -/
theorem C8_dependency_updates (env : Env) (st : DapiState) (k : String)
    (cmd : Recv → List Val → CmdRes) (params : List Val)
    (d p : List (String × Val))
    (hc : alookup env.fns k = some cmd) (hu : k ∉ st.decoratedFns) :
    setDependencies none st
        = (some (JsErr.typeError "Dependencies must be defined"), st)
    ∧ setDependencies (some d) st
        = (none, { st with deps := d, defnDeps := d })
    ∧ updateDependencies none st
        = (some (JsErr.typeError "Dependencies must be defined"), st)
    ∧ updateDependencies (some p) st
        = (none, { st with deps := objMerge st.deps p,
                            defnDeps := objMerge st.deps p })
    ∧ callFacade env (setDependencies (some d) st).2 k params
        = { sync := [Event.cmdCall Recv.wrapper (Val.obj d :: params)],
            result := liftCmdRes (cmd Recv.wrapper (Val.obj d :: params)),
            deferred := [], swallowed := [] } := by
  refine ⟨rfl, rfl, rfl, rfl, ?_⟩
  exact callFacade_undecorated env
    { st with deps := d, defnDeps := d } k cmd params hc hu

/-- C8 (witness): the dependency mutation equations instantiated on a
fresh wrapper of envA, with a full replacement and a partial update. -/
theorem C8_witness :
    (alookup envA.fns "k" = some cmd5 ∧ "k" ∉ (initState d0).decoratedFns)
    ∧ (setDependencies none (initState d0)
        = (some (JsErr.typeError "Dependencies must be defined"), initState d0)
      ∧ setDependencies (some [("x", Val.int 1)]) (initState d0)
        = (none, { initState d0 with
                    deps := [("x", Val.int 1)],
                    defnDeps := [("x", Val.int 1)] })
      ∧ updateDependencies none (initState d0)
        = (some (JsErr.typeError "Dependencies must be defined"), initState d0)
      ∧ updateDependencies (some [("foo", Val.int 2)]) (initState d0)
        = (none, { initState d0 with
            deps := objMerge (initState d0).deps [("foo", Val.int 2)],
            defnDeps := objMerge (initState d0).deps [("foo", Val.int 2)] })
      ∧ callFacade envA
          (setDependencies (some [("x", Val.int 1)]) (initState d0)).2 "k" []
        = { sync := [Event.cmdCall Recv.wrapper
              (Val.obj [("x", Val.int 1)] :: [])],
            result := liftCmdRes (cmd5 Recv.wrapper
              (Val.obj [("x", Val.int 1)] :: [])),
            deferred := [], swallowed := [] }) :=
  ⟨⟨rfl, by decide⟩,
    C8_dependency_updates envA (initState d0) "k" cmd5 []
      [("x", Val.int 1)] [("foo", Val.int 2)] rfl (by decide)⟩

/-- C9 (counterexample): the claim that invoking the remover returned by
decorateAll restores every key's prior behavior fails on the code when the
decorator passed to decorateAll is already registered.  In stA the lists
are [1, 2]; decorateAll with decorator 1 appends it ([1, 2, 1]) and the
remover removes the FIRST identity match, leaving [2, 1] - the two
decorators swapped.  The call result changes from (5 + 1) * 2 = 12 before
to 5 * 2 + 1 = 11 after, so behavior is not restored. -/
theorem C9_counterexample :
    resInt (callFacade envA stA "k" []) = some 12
    ∧ (decorateAll envA 1 stA).1 = none
    ∧ resInt (callFacade envA
        (runRemovers (decorateAll envA 1 stA).2.2 (decorateAll envA 1 stA).2.1)
        "k" []) = some 11
    ∧ (some (11 : Int)) ≠ some 12 := by
  decide

/-- C9 (amended): for a well-formed wrapper state and a decorator instance
not registered on any key beforehand, decorateAll succeeds and invoking
its returned remover restores the whole wrapper state exactly - hence
every key's behavior, and in particular a key that had no decorators and
no hooks returns to the undecorated direct-call state.  (When the instance
was already registered somewhere, only the multiset of registered
decorators is restored; their order, and hence behavior, can change, as
the counterexample shows.) -/
theorem C9_restore_after_decorateAll (env : Env) (d : Nat) (st : DapiState)
    (hwf : WFx st) (hnd : (akeys env.fns).Nodup)
    (hfresh : ∀ kv ∈ st.decorators, d ∉ kv.2) :
    (decorateAll env d st).1 = none
    ∧ runRemovers (decorateAll env d st).2.2 (decorateAll env d st).2.1
      = st := by
  have hks : ∀ k ∈ akeys env.fns, (alookup env.fns k).isSome :=
    fun k hk => alookup_isSome_of_mem_akeys hk
  have hgo := decorateAllGo_spec env d (akeys env.fns) st [] hks
  unfold decorateAll
  rw [hgo]
  refine ⟨rfl, ?_⟩
  unfold runRemovers
  have hc := removers_cancel env d (akeys env.fns) st hwf hnd hks hfresh
  simpa using hc

/-- C9 (witness): the amended restoration theorem instantiated on stA with
the fresh decorator identity 3. -/
theorem C9_witness :
    (WFx stA ∧ (akeys envA.fns).Nodup ∧ (∀ kv ∈ stA.decorators, 3 ∉ kv.2))
    ∧ ((decorateAll envA 3 stA).1 = none
      ∧ runRemovers (decorateAll envA 3 stA).2.2 (decorateAll envA 3 stA).2.1
        = stA) :=
  ⟨⟨⟨⟨by decide, by decide, by decide⟩, by decide, by decide, by decide⟩,
      by decide, by decide⟩,
    C9_restore_after_decorateAll envA 3 stA
      ⟨⟨by decide, by decide, by decide⟩, by decide, by decide, by decide⟩
      (by decide) (by decide)⟩

/-- C10: after any sequence of the registry operations (addDecorator,
removeDecorator, decorateAll, addHook, removeHook and the removers they
return) that completes without throwing, starting from a freshly
constructed wrapper, the state satisfies the registry invariant: a key is
in the decorated-keys list if and only if it has an entry in the
decorators map or the hooks map, every decorator list present is
non-empty, and every hook record present holds at least one pre- or
post-hook. -/
theorem C10_registry_invariant (env : Env) (ops : List Op)
    (dep0 : List (String × Val)) (st' : DapiState)
    (h : runOps env ops (initState dep0) = some st') :
    (∀ k ∈ st'.decoratedFns,
      (alookup st'.decorators k).isSome ∨ (alookup st'.hooks k).isSome)
    ∧ (∀ kv ∈ st'.decorators, kv.1 ∈ st'.decoratedFns ∧ kv.2 ≠ [])
    ∧ (∀ kr ∈ st'.hooks,
        kr.1 ∈ st'.decoratedFns ∧ (kr.2.pre ≠ [] ∨ kr.2.post ≠ [])) :=
  (wfx_runOps env ops (initState dep0) st' (wfx_initState dep0) h).1

/-- C10 (witness): the invariant theorem instantiated on the concrete
operation sequence opsW, which runs without throwing and ends back in the
fresh state. -/
theorem C10_witness :
    runOps envA opsW (initState d0) = some (initState d0)
    ∧ ((∀ k ∈ (initState d0).decoratedFns,
        (alookup (initState d0).decorators k).isSome
          ∨ (alookup (initState d0).hooks k).isSome)
      ∧ (∀ kv ∈ (initState d0).decorators,
          kv.1 ∈ (initState d0).decoratedFns ∧ kv.2 ≠ [])
      ∧ (∀ kr ∈ (initState d0).hooks,
          kr.1 ∈ (initState d0).decoratedFns
            ∧ (kr.2.pre ≠ [] ∨ kr.2.post ≠ []))) :=
  ⟨rfl, C10_registry_invariant envA opsW d0 (initState d0) rfl⟩

end Dapi
